import Mathlib

/-!
Verification of the SiphonyGIU "Combine" pipeline and its foam/paper
configuration store, as a shallow embedding of the Python sources
(`src/modules/combine_module.py`, `src/modules/foam_type_manager.py`).

Strings are modelled as `List Char` (Python `str`), spreadsheet cells as an
inductive `Cell` (missing / text / numeric with `ℚ` standing for Python
floats), data frames as a list of column names plus a list of rows, and the
filesystem effects of the archival logic as an explicit state record.
-/

namespace Siphony

/-! ## LabelNormalizer (`CombineModule.normalize_label`) -/

/-- Python `str.strip()`: drop leading and trailing whitespace.  (Python strips
all Unicode whitespace; the labels handled here only ever contain the ASCII
whitespace covered by `Char.isWhitespace`.) -/
def pyStrip (l : List Char) : List Char :=
  ((l.dropWhile Char.isWhitespace).reverse.dropWhile Char.isWhitespace).reverse

/-- The regex class `\d` restricted to ASCII (code points 48–57); the labels
this program handles are ASCII. -/
def pyIsDigit (c : Char) : Bool := 48 ≤ c.toNat && c.toNat ≤ 57

/-- The extensions of `re.sub(r"\.(xlsx|xls|csv|txt)$", ...)`, in the regex's
alternation order. -/
def extSuffixes : List (List Char) :=
  [".xlsx".data, ".xls".data, ".csv".data, ".txt".data]

/-- `re.sub(r"\.(xlsx|xls|csv|txt)$", "", label, flags=re.IGNORECASE)`:
remove one trailing extension, case-insensitively.  At most one alternative
can match at the end of the string. -/
def dropExt (l : List Char) : List Char :=
  let low := l.map Char.toLower
  match extSuffixes.find? (fun suf => suf.isSuffixOf low) with
  | some suf => l.take (l.length - suf.length)
  | none => l

/-- The cleaning phase of `normalize_label`: strip, then remove one trailing
extension. -/
def cleanChars (l : List Char) : List Char := dropExt (pyStrip l)

/-- One scanning pass of `re.findall(r"(\d{4,}(?:-\d+)?)", label)`.  At a
digit position the regex greedily takes the maximal digit run; if it has at
least 4 digits it forms a match, optionally extended by `-<digits>`, and
scanning resumes after the match; otherwise the scan advances one character.
`fuel` bounds the recursion (each step consumes at least one character, so
`l.length` fuel is always enough).  Python's `\d` also covers non-ASCII
Unicode digits; labels here are ASCII, modelled by `pyIsDigit`. -/
def tokensAux : Nat → List Char → List (List Char)
  | 0, _ => []
  | _ + 1, [] => []
  | fuel + 1, c :: cs =>
    if pyIsDigit c then
      if 4 ≤ ((c :: cs).takeWhile pyIsDigit).length then
        match (c :: cs).dropWhile pyIsDigit with
        | [] => ((c :: cs).takeWhile pyIsDigit) :: tokensAux fuel []
        | a :: r2 =>
          if a = '-' && !(r2.takeWhile pyIsDigit).isEmpty then
            (((c :: cs).takeWhile pyIsDigit) ++ a :: r2.takeWhile pyIsDigit)
              :: tokensAux fuel (r2.dropWhile pyIsDigit)
          else
            ((c :: cs).takeWhile pyIsDigit) :: tokensAux fuel (a :: r2)
      else
        tokensAux fuel cs
    else
      tokensAux fuel cs

/-- `re.findall(r"(\d{4,}(?:-\d+)?)", label)`. -/
def findTokens (l : List Char) : List (List Char) := tokensAux l.length l

/-- `CombineModule.normalize_label` on a string argument: clean, then return
the last regex match if any, else the cleaned string. -/
def normalizeChars (s : List Char) : List Char :=
  match findTokens (cleanChars s) with
  | [] => cleanChars s
  | t :: ts => (t :: ts).getLastD []

/-- `normalize_label` packaged on `String`. -/
def normalizeLabel (s : String) : String := ⟨normalizeChars s.data⟩

/-- All characters are decimal digits. -/
def allDigits (l : List Char) : Bool := l.all pyIsDigit

/-- The spec's description of an extracted token: a numeric run of at least 4
digits, optionally followed by `-<digits>`. -/
def isNumToken (t : List Char) : Bool :=
  4 ≤ (t.takeWhile pyIsDigit).length &&
    (match t.dropWhile pyIsDigit with
     | [] => true
     | a :: es => a = '-' && !es.isEmpty && allDigits es)

/-- Spec-side: the string contains a run of at least 4 consecutive digits
(equivalently, some suffix starts with one) — exactly when the regex
`\d{4,}(?:-\d+)?` has a match. -/
def hasRun4 : List Char → Bool
  | [] => false
  | c :: cs => decide (4 ≤ ((c :: cs).takeWhile pyIsDigit).length) || hasRun4 cs

/-! ## Cells and frames (the `pandas` fragment the Combine pipeline uses) -/

/-- A spreadsheet / `pandas` cell: missing (`NaN`), text, or numeric (Python
floats modelled by `ℚ`). -/
inductive Cell
  | na
  | str (s : String)
  | num (q : ℚ)
deriving DecidableEq

/-- Python `str` applied to a numeric cell.  Integral values print as `k.0`;
the program's label columns are always text after normalization, so this case
is unreachable there, and binary-float rendering is outside the model. -/
def ratRepr (q : ℚ) : String :=
  toString q.num ++ (if q.den = 1 then ".0" else "/" ++ toString q.den)

/-- Python `str(x)` on a cell value, as `normalize_label` receives it via
`Series.map`: `str(float('nan')) = "nan"`. -/
def pyStrCell : Cell → String
  | Cell.na => "nan"
  | Cell.str s => s
  | Cell.num q => ratRepr q

/-- `df['Label'].map(self.normalize_label)` on one cell (`normalize_label`'s
`s is None` branch is subsumed: pandas stores missing values as `NaN`). -/
def normCell (c : Cell) : String := normalizeLabel (pyStrCell c)

/-- Digit run to its value (base 10). -/
def digitsVal (l : List Char) : Nat := l.foldl (fun n c => n * 10 + (c.toNat - 48)) 0

/-- The decimal fragment of Python `float(...)` / `pd.to_numeric`: optional
sign, digits, optional fractional part.  (Scientific notation, `inf`/`nan`
words are not modelled; no theorem below depends on string parsing.) -/
def parseDec (s : List Char) : Option ℚ :=
  let t := pyStrip s
  let signed : Bool × List Char :=
    match t with
    | '-' :: r => (true, r)
    | '+' :: r => (false, r)
    | r => (false, r)
  let ipart := signed.2.takeWhile pyIsDigit
  let rest := signed.2.dropWhile pyIsDigit
  match rest with
  | [] =>
    if ipart.isEmpty then none
    else some (cond signed.1 (-(digitsVal ipart : ℚ)) (digitsVal ipart))
  | '.' :: fr =>
    let fpart := fr.takeWhile pyIsDigit
    if (fr.dropWhile pyIsDigit).isEmpty = false then none
    else if ipart.isEmpty && fpart.isEmpty then none
    else
      let base : ℚ := (digitsVal ipart : ℚ) + (digitsVal fpart : ℚ) / ((10 : ℚ) ^ fpart.length)
      some (cond signed.1 (-base) base)
  | _ => none

/-- `pd.to_numeric(x, errors='coerce')` on one cell. -/
def toNumericCell : Cell → Cell
  | Cell.num q => Cell.num q
  | Cell.str s =>
    match parseDec s.data with
    | some q => Cell.num q
    | none => Cell.na
  | Cell.na => Cell.na

/-- Elementwise `/ 10` after `to_numeric` (missing stays missing). -/
def divTen : Cell → Cell
  | Cell.num q => Cell.num (q / 10)
  | c => c

/-- Elementwise `* 1000` after `to_numeric` (missing stays missing). -/
def mulThousand : Cell → Cell
  | Cell.num q => Cell.num (q * 1000)
  | c => c

/-- A `pandas.DataFrame`: ordered column names plus rows of cells.
Well-formedness (rectangularity) is the separate predicate `Frame.WF`. -/
structure Frame where
  colNames : List String
  rows : List (List Cell)
deriving DecidableEq

/-- Rectangularity: every row has one cell per column. -/
def Frame.WF (f : Frame) : Prop := ∀ r ∈ f.rows, r.length = f.colNames.length

/-- `df.empty`: true when either axis has length 0. -/
def Frame.pyEmpty (f : Frame) : Bool := f.rows.isEmpty || f.colNames.isEmpty

/-- The cell of row `r` at the column named `n` (first matching column, cells
aligned positionally with the column list); `na` when the name is absent. -/
def lookupCell : List String → List Cell → String → Cell
  | [], _, _ => Cell.na
  | _ :: _, [], _ => Cell.na
  | m :: ms, c :: cs, n => if m = n then c else lookupCell ms cs n

/-- `df[n]` as a list of cells. -/
def Frame.colVals (f : Frame) (n : String) : List Cell :=
  f.rows.map (fun r => lookupCell f.colNames r n)

/-- Replace the cell of the (first) column named `n` in one row. -/
def setRowCell : List String → List Cell → String → Cell → List Cell
  | [], r, _, _ => r
  | _ :: _, [], _, _ => []
  | m :: ms, c :: cs, n, v => if m = n then v :: cs else c :: setRowCell ms cs n v

/-- `df[n] = vs`: overwrite the column when the name exists, else append it on
the right (pandas column assignment).  Call sites always pass `vs` with the
frame's row count. -/
def Frame.setCol (f : Frame) (n : String) (vs : List Cell) : Frame :=
  if n ∈ f.colNames then
    ⟨f.colNames, (f.rows.zip vs).map (fun p => setRowCell f.colNames p.1 n p.2)⟩
  else
    ⟨f.colNames ++ [n], (f.rows.zip vs).map (fun p => p.1 ++ [p.2])⟩

/-- `df[names]`: project/reorder to the given column list (call sites ensure
every name exists first; absent names would raise in pandas). -/
def Frame.selectCols (f : Frame) (names : List String) : Frame :=
  ⟨names, f.rows.map (fun r => names.map (lookupCell f.colNames r))⟩

/-- `for col in order: if col not in df.columns: df[col] = pd.NA`
(merge_for_foam lines 1164–1166 and create_combined_excel lines 872–874). -/
def ensureCols (order : List String) (f : Frame) : Frame :=
  order.foldl
    (fun g c =>
      if c ∈ g.colNames then g else g.setCol c (List.replicate g.rows.length Cell.na))
    f

/-- `pd.concat([a, b], ignore_index=True)`: union of columns in order of
first appearance, missing columns filled with `NaN`. -/
def concatFrames (a b : Frame) : Frame :=
  let names := a.colNames ++ b.colNames.filter (fun n => decide (n ∉ a.colNames))
  ⟨names,
    a.rows.map (fun r => names.map (lookupCell a.colNames r))
      ++ b.rows.map (fun r => names.map (lookupCell b.colNames r))⟩

/-- Dictionary lookup in a row-dict (keys are unique at every call site, so
first-match equals Python `dict` access). -/
def recLookup : List (String × Cell) → String → Cell
  | [], _ => Cell.na
  | (k, v) :: r, n => if k = n then v else recLookup r n

/-- First-occurrence deduplication (insertion order of `dict` keys /
`pd.DataFrame(list_of_dicts)` columns). -/
def dedupFirstAux : List String → List String → List String
  | _, [] => []
  | seen, x :: xs =>
    if x ∈ seen then dedupFirstAux seen xs else x :: dedupFirstAux (x :: seen) xs

def dedupFirst (l : List String) : List String := dedupFirstAux [] l

/-- `pd.DataFrame(rows)` from a list of dicts: columns are the union of the
row keys in order of first appearance; missing keys become `NaN`. -/
def frameOfRecords (recs : List (List (String × Cell))) : Frame :=
  let names := dedupFirst ((recs.map (fun r => r.map Prod.fst)).flatten)
  ⟨names, recs.map (fun r => names.map (recLookup r))⟩

/-! ## Canonical columns and `_ensure_psat_column` -/

def RHO_FOAM_G : String := "ρ foam (g/cm^3)"
def RHO_FOAM_KG : String := "ρ foam (kg/m^3)"
def DESV_RHO_FOAM_G : String := "Desvest ρ foam (g/cm^3)"
def DESV_RHO_FOAM_KG : String := "Desvest ρ foam (kg/m^3)"
def PDER_RHO_FOAM : String := "%DER ρ foam (g/cm^3)"
def RHO_REL : String := "ρᵣ"
def EXPANSION_COL : String := "X"

/-- `BASE_NEW_COLUMN_ORDER` (combine_module.py lines 24–33): the canonical
output column order. -/
def BASE_NEW_COLUMN_ORDER : List String :=
  ["Polymer", "Additive", "Additive %", "Label",
   "m(g)", "Water (g)", "T (°C)", "P CO2 (bar)", "Psat (MPa)", "t (min)",
   "Pi (MPa)", "Pf (MPa)", "PDR (MPa/s)",
   "n SEM images", "ø (µm)", "Desvest ø (µm)", "RSD ø (%)",
   "Nᵥ (cells·cm^3)", "Desvest Nᵥ (cells·cm^3)", "RSD Nᵥ (%)",
   RHO_FOAM_G, RHO_FOAM_KG, DESV_RHO_FOAM_G, DESV_RHO_FOAM_KG, PDER_RHO_FOAM,
   RHO_REL, EXPANSION_COL,
   "OC (%)",
   "DSC Tm (°C)", "DSC Xc (%)", "DSC Tg (°C)"]

def DENSITY_DATA_COLUMNS : List String :=
  [RHO_FOAM_G, RHO_FOAM_KG, DESV_RHO_FOAM_G, DESV_RHO_FOAM_KG, PDER_RHO_FOAM,
   RHO_REL, EXPANSION_COL]

/-- All cells missing (`Series.isna().all()`). -/
def allNa (cs : List Cell) : Bool := cs.all (fun c => c == Cell.na)

/-- `_ensure_psat_column` (combine_module.py lines 90–99): derive
`Psat (MPa) = P CO2 (bar) / 10` when the Psat column is absent or entirely
missing and a `P CO2 (bar)` column exists. -/
def ensurePsat (f : Frame) : Frame :=
  if f.pyEmpty then f
  else if ("Psat (MPa)" ∉ f.colNames
        ∨ ("Psat (MPa)" ∈ f.colNames ∧ allNa (f.colVals "Psat (MPa)") = true))
      ∧ "P CO2 (bar)" ∈ f.colNames then
    f.setCol "Psat (MPa)" ((f.colVals "P CO2 (bar)").map (fun c => divTen (toNumericCell c)))
  else f

/-! ## The merge engine (`merge_for_foam`) -/

/-- Lexicographic comparison of strings by code point (Python `<=` on `str`). -/
def lexLe : List Char → List Char → Bool
  | [], _ => true
  | _ :: _, [] => false
  | x :: xs, y :: ys => if x = y then lexLe xs ys else decide (x < y)

def strLe (a b : String) : Bool := lexLe a.data b.data

def insertSorted (x : String) : List String → List String
  | [] => [x]
  | y :: ys => if strLe x y then x :: y :: ys else y :: insertSorted x ys

/-- `sorted(...)` on the deduplicated label set (insertion sort; the elements
are distinct, so any stable sort gives Python's result). -/
def pySorted : List String → List String
  | [] => []
  | x :: xs => insertSorted x (pySorted xs)

/-- The column subsets each source contributes in `merge_for_foam`
(lines 1131, 1133, 1135–1143, 1148, 1153, 1157); pairwise disjoint and never
containing `Label`/`Polymer`/`Psat (MPa)`. -/
def DOE_MERGE_COLS : List String :=
  ["Additive", "Additive %", "m(g)", "Water (g)", "T (°C)", "P CO2 (bar)", "t (min)"]

def PDR_MERGE_COLS : List String := ["Pi (MPa)", "Pf (MPa)", "PDR (MPa/s)"]

def SEM_MERGE_COLS : List String :=
  ["n SEM images", "ø (µm)", "Desvest ø (µm)", "RSD ø (%)",
   "Nᵥ (cells·cm^3)", "Desvest Nᵥ (cells·cm^3)", "RSD Nᵥ (%)"]

def DSC_MERGE_COLS : List String := ["DSC Tm (°C)", "DSC Xc (%)", "DSC Tg (°C)"]

/-- `lbl in i_df.index` / `i_df.loc[lbl]` after `set_index` on the normalized
label column: the first row whose normalized label is `lbl`. -/
def firstRowWith (f : Frame) (lbl : String) : Option (List Cell) :=
  f.rows.find? (fun r => normCell (lookupCell f.colNames r "Label") == lbl)

/-- One output row of `merge_for_foam` (lines 1124–1160): the dict starts as
`{'Label': lbl, 'Polymer': foam}` and each source then contributes its owned
columns when `lbl` is in its index.  For `doe`, duplicates use `iloc[0]`
exactly as the source does; for the other sources the source would store a
pandas sub-object on duplicate labels, which the model flattens to the first
matching row — the `Label`/`Polymer` entries are unaffected either way. -/
def buildRow (foam : String) (doe den pdr oc dsc sem : Frame) (lbl : String) :
    List (String × Cell) :=
  [("Label", Cell.str lbl), ("Polymer", Cell.str foam)]
  ++ (if doe.pyEmpty = false ∧ "Label" ∈ doe.colNames then
        match firstRowWith doe lbl with
        | some r => DOE_MERGE_COLS.map (fun c => (c, lookupCell doe.colNames r c))
        | none => []
      else [])
  ++ (if pdr.pyEmpty = false ∧ "Label" ∈ pdr.colNames then
        match firstRowWith pdr lbl with
        | some r => PDR_MERGE_COLS.map (fun c => (c, lookupCell pdr.colNames r c))
        | none => []
      else [])
  ++ (if sem.pyEmpty = false ∧ "Label" ∈ sem.colNames then
        match firstRowWith sem lbl with
        | some r =>
          (SEM_MERGE_COLS.filter (fun c => decide (c ∈ sem.colNames.erase "Label"))).map
            (fun c => (c, lookupCell sem.colNames r c))
        | none => []
      else [])
  ++ (if den.pyEmpty = false ∧ "Label" ∈ den.colNames then
        match firstRowWith den lbl with
        | some r =>
          (DENSITY_DATA_COLUMNS.filter (fun c => decide (c ∈ den.colNames.erase "Label"))).map
            (fun c => (c, lookupCell den.colNames r c))
        | none => []
      else [])
  ++ (if oc.pyEmpty = false ∧ "Label" ∈ oc.colNames then
        match firstRowWith oc lbl with
        | some r => [("OC (%)", lookupCell oc.colNames r "OC (%)")]
        | none => []
      else [])
  ++ (if dsc.pyEmpty = false ∧ "Label" ∈ dsc.colNames then
        match firstRowWith dsc lbl with
        | some r =>
          (DSC_MERGE_COLS.filter (fun c => decide (c ∈ dsc.colNames.erase "Label"))).map
            (fun c => (c, lookupCell dsc.colNames r c))
        | none => []
      else [])

/-- The per-source normalized label lists of `merge_for_foam` (lines
1108–1111): one list per source that is non-empty and has a `Label` column,
in the source order `[doe, density, pdr, oc, dsc, sem]`. -/
def mergePool (doe den pdr oc dsc sem : Frame) : List (List String) :=
  [doe, den, pdr, oc, dsc, sem].filterMap (fun f =>
    if f.pyEmpty = false ∧ "Label" ∈ f.colNames then
      some ((f.colVals "Label").map normCell)
    else none)

/-- `CombineModule.merge_for_foam` (lines 1095–1167), applied to the six
frames the source readers return: union of normalized labels over non-empty
sources with a `Label` column, one row per label in sorted order, then the
Psat derivation, canonical column completion and projection. -/
def mergeForFoam (foam : String) (doe den pdr oc dsc sem : Frame) : Frame :=
  let allLabels := dedupFirst (mergePool doe den pdr oc dsc sem).flatten
  if allLabels.isEmpty then ⟨[], []⟩
  else
    let rows := (pySorted allLabels).map (buildRow foam doe den pdr oc dsc sem)
    ((ensureCols BASE_NEW_COLUMN_ORDER (ensurePsat (frameOfRecords rows))).selectCols
      BASE_NEW_COLUMN_ORDER)

/-! ## Workbook assembly (`create_combined_excel`) -/

/-- `foam_type.replace('/', '_')[:31]` (line 862): the per-foam sheet name —
only `/` is replaced and the result is truncated to 31 characters. -/
def excelSheetName (ft : String) : String :=
  ⟨(ft.data.map (fun c => if c = '/' then '_' else c)).take 31⟩

/-- Modelled from the spec's words for C9 (the code only replaces `/`): every
illegal character among `: \ / ? * [ ]` replaced by `_`, truncated to the
31-character sheet-name limit. -/
def specSheetName (ft : String) : String :=
  ⟨(ft.data.map
      (fun c => if c ∈ [':', '\\', '/', '?', '*', '[', ']'] then '_' else c)).take 31⟩

/-- The six input files of one foam type, as the frames their readers return. -/
structure SourceSet where
  doe : Frame
  density : Frame
  pdr : Frame
  oc : Frame
  dsc : Frame
  sem : Frame

/-- One iteration of `create_combined_excel`'s per-foam loop (lines 848–863):
skip empty merges; otherwise tag the merged frame with `Polymer`, record its
sheet, and append it to the accumulating `All_Results` data. -/
def combineStep (acc : List (String × Frame) × Frame) (it : String × SourceSet) :
    List (String × Frame) × Frame :=
  let fd := mergeForFoam it.1 it.2.doe it.2.density it.2.pdr it.2.oc it.2.dsc it.2.sem
  if fd.pyEmpty then acc
  else
    let fd2 := fd.setCol "Polymer" (List.replicate fd.rows.length (Cell.str it.1))
    let allData := if acc.2.pyEmpty then fd2 else concatFrames acc.2 fd2
    (acc.1 ++ [(excelSheetName it.1, fd2)], allData)

/-- `CombineModule.create_combined_excel` (lines 837–881): merge every foam
type, write one sheet per non-empty merge (tagged with `Polymer`), accumulate
`All_Results`, then the kg/m³ derivations, the Psat derivation, canonical
column completion and projection. -/
def createCombined (inputs : List (String × SourceSet)) : List (String × Frame) × Frame :=
  let res := inputs.foldl combineStep ([], ⟨[], []⟩)
  let ad1 := res.2
  let ad2 :=
    if RHO_FOAM_G ∈ ad1.colNames then
      ad1.setCol RHO_FOAM_KG ((ad1.colVals RHO_FOAM_G).map (fun c => mulThousand (toNumericCell c)))
    else ad1
  let ad3 :=
    if DESV_RHO_FOAM_G ∈ ad2.colNames then
      ad2.setCol DESV_RHO_FOAM_KG
        ((ad2.colVals DESV_RHO_FOAM_G).map (fun c => mulThousand (toNumericCell c)))
    else ad2
  (res.1, (ensureCols BASE_NEW_COLUMN_ORDER (ensurePsat ad3)).selectCols BASE_NEW_COLUMN_ORDER)

/-! ## Positional column access (`_cm_excel_col_idx`, `_cm_col`) -/

/-- `_cm_excel_col_idx` (lines 1180–1188): strip, uppercase, accumulate
base-26 over the characters in `A`–`Z` (others are skipped), return `num - 1`,
or 0 when nothing accumulated. -/
def cmExcelColIdx (letters : String) : Nat :=
  let cs := (pyStrip letters.data).map Char.toUpper
  let num := cs.foldl
    (fun n ch => if 65 ≤ ch.toNat ∧ ch.toNat ≤ 90 then n * 26 + (ch.toNat - 65 + 1) else n) 0
  if num = 0 then 0 else num - 1

/-- Modelled from the claim's words for C10: keep only the A–Z letters (after
strip and uppercase), convert base-26; an empty or invalid string maps to
index 0. -/
def specColIdx (letters : String) : Nat :=
  let kept := ((pyStrip letters.data).map Char.toUpper).filter
    (fun ch => decide (65 ≤ ch.toNat ∧ ch.toNat ≤ 90))
  if kept.isEmpty then 0
  else (kept.foldl (fun n ch => n * 26 + (ch.toNat - 65 + 1)) 0) - 1

/-- `_cm_col` (lines 1190–1194): positional column access; an index at or
beyond the column count yields an all-`NA` series of the frame's row count
instead of raising. -/
def cmCol (df : Frame) (letters : String) : List Cell :=
  let idx := cmExcelColIdx letters
  if df.colNames.length ≤ idx then List.replicate df.rows.length Cell.na
  else df.rows.map (fun r => r.getD idx Cell.na)

/-! ## Source readers (DSC, OC) -/

/-- A workbook as the readers see it: named sheets, each already parsed into
column names (the header row) plus data rows.  `none` stands for a missing
path or an unreadable file — both take a reader's empty-schema branch. -/
def Workbook := List (String × Frame)

/-- ASCII `str.lower()`. -/
def pyLower (s : String) : String := ⟨s.data.map Char.toLower⟩

/-- ASCII `str.strip()` on `String`. -/
def pyStripStr (s : String) : String := ⟨pyStrip s.data⟩

/-- `{n.lower(): n for n in sheet_names}.get(key)`: in a dict comprehension
later duplicates overwrite earlier ones, so the last match wins. -/
def lookupLowerLast (sheets : List String) (key : String) : Option String :=
  (sheets.filter (fun n => pyLower n == key)).getLast?

/-- Python `x or y` on optional sheet names (`None` and `""` are falsy). -/
def pyOrStr (a b : Option String) : Option String :=
  match a with
  | some s => if s = "" then b else some s
  | none => b

/-- `pd.read_excel(xls, sheet_name=sheet)`: the sheet of that name (the name
is always taken from the workbook's own sheet list). -/
def findSheet (wb : Workbook) (name : String) : Frame :=
  match wb.find? (fun s => s.1 == name) with
  | some s => s.2
  | none => ⟨[], []⟩

/-- `df.dropna(subset=['Label'])`. -/
def dropnaLabel (f : Frame) : Frame :=
  ⟨f.colNames, f.rows.filter (fun r => !(lookupCell f.colNames r "Label" == Cell.na))⟩

/-- `pd.DataFrame({...})` from named columns (equal lengths at every call
site). -/
def frameOfCols (cols : List (String × List Cell)) : Frame :=
  let n := (cols.headD ("", [])).2.length
  ⟨cols.map Prod.fst, (List.range n).map (fun i => cols.map (fun c => c.2.getD i Cell.na))⟩

def DSC_SCHEMA : List String := ["Label", "DSC Tm (°C)", "DSC Xc (%)", "DSC Tg (°C)"]

/-- `CombineModule._read_dsc_pos` (lines 1050–1073): pick `dsc_results`, else
`dsc_tg_results` (case-insensitive), else the first sheet; read the fixed
columns of whichever case applies.  A workbook with no sheets raises at
`sheet_names[0]` and the handler returns the empty schema frame, as does a
missing/unreadable path (`none`). -/
def readDscPos (wb? : Option Workbook) : Frame :=
  match wb? with
  | none => ⟨DSC_SCHEMA, []⟩
  | some wb =>
    match wb with
    | [] => ⟨DSC_SCHEMA, []⟩
    | w0 :: _ =>
      let sheetNames := wb.map Prod.fst
      let sheet := (pyOrStr (pyOrStr (lookupLowerLast sheetNames "dsc_results")
        (lookupLowerLast sheetNames "dsc_tg_results")) (some w0.1)).getD w0.1
      let df := findSheet wb sheet
      let out :=
        if pyLower sheet = "dsc_results" then
          frameOfCols [("Label", (cmCol df "A").map (fun c => Cell.str (normCell c))),
                       ("DSC Xc (%)", cmCol df "C"),
                       ("DSC Tm (°C)", cmCol df "F")]
        else if pyLower sheet = "dsc_tg_results" then
          frameOfCols [("Label", (cmCol df "A").map (fun c => Cell.str (normCell c))),
                       ("DSC Tg (°C)", cmCol df "C")]
        else
          frameOfCols [("Label", (cmCol df "A").map (fun c => Cell.str (normCell c)))]
      dropnaLabel out

def OC_SCHEMA : List String := ["Label", "OC (%)"]

/-- The accepted `%OC` header spellings of `_read_oc_pos`. -/
def OC_HEADER_CANDIDATES : List String := ["%oc", "oc (%)", "oc%", "oc %", "oc(%)"]

/-- `{str(h).strip().lower(): idx+1 for idx, h in enumerate(headers)}.get(key)`:
the 1-based position of the last header matching `key` (later duplicates
overwrite earlier dict entries).  Header cells are modelled by the sheet's
column-name strings — both read paths of `_read_oc_pos` see the same
workbook. -/
def headerPos (headers : List String) (key : String) : Option Nat :=
  ((headers.enum.filter (fun p => pyLower (pyStripStr p.2) == key)).getLast?).map
    (fun p => p.1 + 1)

/-- `oc_raw` string cleaning: strip, drop `%`, comma as decimal separator. -/
def ocStrClean (s : String) : List Char :=
  ((pyStrip s.data).filter (fun c => decide (c ≠ '%'))).map (fun c => if c = ',' then '.' else c)

/-- One row of `_read_oc_pos`'s cached-value loop: skip blank/`nan` labels,
normalize the label, coerce the `%OC` cell to a float (int/float pass, strings
are cleaned and parsed, anything else is `None`). -/
def ocRowParse (labelIdx : Nat) (ocIdx : Option Nat) (row : List Cell) : Option (Cell × Cell) :=
  let labelVal := if labelIdx - 1 < row.length then row.getD (labelIdx - 1) Cell.na else Cell.na
  if labelVal == Cell.na || labelVal == Cell.str "" || labelVal == Cell.str "nan" then none
  else
    let ocRaw : Option Cell :=
      match ocIdx with
      | some i => if i - 1 < row.length then some (row.getD (i - 1) Cell.na) else none
      | none => none
    let ocNum : Cell :=
      match ocRaw with
      | some (Cell.num q) => Cell.num q
      | some (Cell.str s) =>
        match parseDec (ocStrClean s) with
        | some q => Cell.num q
        | none => Cell.na
      | _ => Cell.na
    some (Cell.str (normCell labelVal), ocNum)

/-- `_read_oc_pos`'s pandas fallback (lines 1036–1048): first sheet, column A
labels, column K `%OC` coerced numerically; no sheets → the empty schema. -/
def ocFallback (wb : Workbook) : Frame :=
  match wb with
  | [] => ⟨OC_SCHEMA, []⟩
  | w0 :: _ =>
    dropnaLabel (frameOfCols
      [("Label", (cmCol w0.2 "A").map (fun c => Cell.str (normCell c))),
       ("OC (%)", (cmCol w0.2 "K").map toNumericCell)])

/-- `CombineModule._read_oc_pos` (lines 972–1048): first try the cached-value
read of the first sheet (header search for a `%OC`-like column with column K
as positional fallback, `Label` header with column A fallback); if every
extracted `%OC` value is missing, fall back to the purely positional pandas
read.  Missing path or empty workbook yields the empty schema frame. -/
def readOcPos (wb? : Option Workbook) : Frame :=
  match wb? with
  | none => ⟨OC_SCHEMA, []⟩
  | some wb =>
    match wb with
    | [] => ⟨OC_SCHEMA, []⟩
    | w0 :: _ =>
      let headers := w0.2.colNames
      let ocIdx : Option Nat :=
        match (OC_HEADER_CANDIDATES.filterMap (fun c => headerPos headers c)).head? with
        | some i => some i
        | none => if 11 ≤ headers.length then some 11 else none
      let labelIdx := (headerPos headers "label").getD 1
      let parsed := w0.2.rows.filterMap (ocRowParse labelIdx ocIdx)
      let dfOut := frameOfCols
        [("Label", parsed.map Prod.fst), ("OC (%)", parsed.map Prod.snd)]
      if dfOut.pyEmpty = false ∧ (parsed.map Prod.snd).any (fun c => !(c == Cell.na)) then
        dropnaLabel dfOut
      else ocFallback wb

/-! ## ConfigStore (`FoamTypeManager`) -/

/-- One saved path entry (`{input_folder, output_folder, ..., last_used}`). -/
abbrev PathEntry := List (String × String)

set_option synthInstance.maxSize 2048 in
/-- The configuration document (`foam_types_config.json`), restricted to the
fields `remove_paper` / `remove_foam_type` touch.  Dictionaries are
association lists with unique keys. -/
structure Config where
  papers : List String
  currentPaper : String
  foamTypes : List String
  currentFoamType : String
  paperFoamTypes : List (String × List String)
  modulePaths : List (String × List (String × List (String × PathEntry)))
  allResultsPaths : List (String × String)
  paperRootPaths : List (String × String)
deriving DecidableEq

/-- `FoamTypeManager.remove_paper` (lines 158–179): refuse when the paper is
absent or the last one; otherwise remove it (`list.remove` = first
occurrence), purge its module paths, foam associations, all-results path and
root path, and move `current_paper` to `papers[0]` when needed. -/
def removePaper (cfg : Config) (paper : String) : Bool × Config :=
  if paper ∈ cfg.papers ∧ 1 < cfg.papers.length then
    let papers := cfg.papers.erase paper
    let modulePaths := cfg.modulePaths.map
      (fun m => (m.1, m.2.filter (fun p => decide (p.1 ≠ paper))))
    let paperFoamTypes := cfg.paperFoamTypes.filter (fun p => decide (p.1 ≠ paper))
    let allResultsPaths := cfg.allResultsPaths.filter (fun p => decide (p.1 ≠ paper))
    let paperRootPaths := cfg.paperRootPaths.filter (fun p => decide (p.1 ≠ paper))
    let currentPaper := if cfg.currentPaper = paper then papers.headD "" else cfg.currentPaper
    (true, ⟨papers, currentPaper, cfg.foamTypes, cfg.currentFoamType, paperFoamTypes,
      modulePaths, allResultsPaths, paperRootPaths⟩)
  else (false, cfg)

/-- `FoamTypeManager.remove_foam_type` (lines 240–269): refuse when the foam
type is absent or the last one; otherwise remove it from the global registry
(first occurrence), delete its key from every module's per-paper path dicts
and drop paper entries left empty, remove it from every paper's foam list
(first occurrence), and move `current_foam_type` to `foam_types[0]` when
needed. -/
def removeFoamType (cfg : Config) (ft : String) : Bool × Config :=
  if ft ∈ cfg.foamTypes ∧ 1 < cfg.foamTypes.length then
    let foamTypes := cfg.foamTypes.erase ft
    let modulePaths := cfg.modulePaths.map (fun m =>
      (m.1, (m.2.map (fun p => (p.1, p.2.filter (fun e => decide (e.1 ≠ ft))))).filter
        (fun p => !p.2.isEmpty)))
    let paperFoamTypes := cfg.paperFoamTypes.map (fun p => (p.1, p.2.erase ft))
    let currentFoamType :=
      if cfg.currentFoamType = ft then foamTypes.headD "" else cfg.currentFoamType
    (true, ⟨cfg.papers, cfg.currentPaper, foamTypes, currentFoamType, paperFoamTypes,
      modulePaths, cfg.allResultsPaths, cfg.paperRootPaths⟩)
  else (false, cfg)

/-! ## Archival rotation (`manage_previous_results`, `copy_to_previous_results`) -/

/-- The output folder and its `Previous results` subfolder: filename ↦ a stamp
identifying which run's bytes the file holds. -/
structure ArchSt where
  dest : List (String × Nat)
  prev : List (String × Nat)
deriving DecidableEq

/-- `glob('All_Results_*.xlsx')` membership: prefix, suffix, and room for the
`*` part. -/
def isAllResultsName (name : String) : Bool :=
  "All_Results_".data.isPrefixOf name.data && ".xlsx".data.isSuffixOf name.data
    && decide (17 ≤ name.data.length)

def hasFile (dir : List (String × Nat)) (name : String) : Bool :=
  dir.any (fun p => p.1 == name)

/-- Create or overwrite a file (`shutil.move`/`copy2` replace an existing
destination). -/
def putFile (dir : List (String × Nat)) (name : String) (content : Nat) :
    List (String × Nat) :=
  if hasFile dir name then
    dir.map (fun p => if p.1 == name then (name, content) else p)
  else dir ++ [(name, content)]

/-- `os.path.splitext`: split at the last dot (our filenames always have a
plain `.xlsx` extension). -/
def splitExtPy (name : String) : String × String :=
  let r := name.data.reverse
  let afterRev := r.takeWhile (fun c => decide (c ≠ '.'))
  if afterRev.length = r.length then (name, "")
  else (⟨(r.drop (afterRev.length + 1)).reverse⟩, ⟨'.' :: afterRev.reverse⟩)

/-- `CombineModule.manage_previous_results` (lines 575–606): move every
`All_Results_*.xlsx` whose basename differs from the upcoming output's into
`Previous results`; on a name collision there, append `_HHMMSS` to the moved
file's stem. -/
def managePrev (outName hhmmss : String) (st : ArchSt) : ArchSt :=
  st.dest.foldl
    (fun acc p =>
      if isAllResultsName p.1 && !(p.1 == outName) then
        let destName :=
          if hasFile acc.prev p.1 then
            (splitExtPy p.1).1 ++ "_" ++ hhmmss ++ (splitExtPy p.1).2
          else p.1
        ⟨acc.dest.filter (fun q => !(q.1 == p.1)), putFile acc.prev destName p.2⟩
      else acc)
    st

/-- `CombineModule.copy_to_previous_results` (lines 608–626): a plain `copy2`
of the new output into `Previous results`, overwriting any same-named file
there — no timestamp disambiguation. -/
def copyToPrev (outName : String) (st : ArchSt) : ArchSt :=
  match st.dest.find? (fun p => p.1 == outName) with
  | some p => ⟨st.dest, putFile st.prev outName p.2⟩
  | none => st

/-- Writing the new dated workbook (`create_combined_excel` overwrites). -/
def writeOut (outName : String) (content : Nat) (st : ArchSt) : ArchSt :=
  ⟨putFile st.dest outName content, st.prev⟩

/-- One Combine run (`combine_all_data` lines 692–704): dated output name,
rotation, write, audit copy. -/
def runCombine (date hhmmss : String) (content : Nat) (st : ArchSt) : ArchSt :=
  let outName := "All_Results_" ++ date ++ ".xlsx"
  copyToPrev outName (writeOut outName content (managePrev outName hhmmss st))

/-! ## Concrete reader-shaped frames for the witnesses (the spec's §8
end-to-end scenario: DoE has labels A and B, Density has B and C, the other
sources are schema-only empty frames as their readers return them). -/

def wDoe : Frame :=
  ⟨["Polymer", "Additive", "Additive %", "Label", "m(g)", "Water (g)", "T (°C)",
    "P CO2 (bar)", "Psat (MPa)", "t (min)"],
   [[Cell.str "X", Cell.str "", Cell.na, Cell.str "A", Cell.na, Cell.na, Cell.na,
     Cell.num 50, Cell.num 5, Cell.na],
    [Cell.str "X", Cell.str "", Cell.na, Cell.str "B", Cell.na, Cell.na, Cell.na,
     Cell.num 60, Cell.num 6, Cell.na]]⟩

def wDen : Frame :=
  ⟨"Label" :: DENSITY_DATA_COLUMNS,
   [[Cell.str "B", Cell.num 1, Cell.num 1000, Cell.num 2, Cell.num 2000, Cell.na,
     Cell.na, Cell.na],
    [Cell.str "C", Cell.num 3, Cell.num 3000, Cell.num 4, Cell.num 4000, Cell.na,
     Cell.na, Cell.na]]⟩

def wDoeEmpty : Frame :=
  ⟨["Polymer", "Additive", "Additive %", "Label", "m(g)", "Water (g)", "T (°C)",
    "P CO2 (bar)", "Psat (MPa)", "t (min)"], []⟩

def wDenEmpty : Frame := ⟨"Label" :: DENSITY_DATA_COLUMNS, []⟩

def wPdrEmpty : Frame := ⟨["Label", "Pi (MPa)", "Pf (MPa)", "PDR (MPa/s)"], []⟩

def wOcEmpty : Frame := ⟨OC_SCHEMA, []⟩

def wDscEmpty : Frame := ⟨DSC_SCHEMA, []⟩

def wSemEmpty : Frame := ⟨"Label" :: SEM_MERGE_COLS, []⟩

def wInputs : List (String × SourceSet) :=
  [("X", ⟨wDoe, wDen, wPdrEmpty, wOcEmpty, wDscEmpty, wSemEmpty⟩)]

/-- A small configuration as the GUI builds it (lists populated from dict
keys, hence duplicate-free). -/
def wCfg : Config :=
  ⟨["P1"], "P1", ["F1", "F2"], "F1",
   [("P1", ["F1", "F2"])],
   [("combine", [("P1", [("F1", [("input_folder", "/a")]),
                         ("F2", [("input_folder", "/b")])])])],
   [("P1", "/ar")], [("P1", "/rootdir")]⟩

end Siphony

namespace Siphony

/-! ### Lemmas about the label normalizer -/

theorem tokensAux_nil (f : Nat) : tokensAux f [] = [] := by
  cases f <;> rfl

theorem takeWhile_all (p : Char → Bool) (l : List Char) : (l.takeWhile p).all p = true := by
  induction l with
  | nil => rfl
  | cons c cs ih =>
    rw [List.takeWhile_cons]
    cases h : p c with
    | true => simp [h, ih]
    | false => rfl

theorem takeWhile_eq_self_of_all {p : Char → Bool} :
    ∀ {l : List Char}, l.all p = true → l.takeWhile p = l := by
  intro l
  induction l with
  | nil => intro _; rfl
  | cons a as ih =>
    intro h
    rw [List.all_cons, Bool.and_eq_true] at h
    rw [List.takeWhile_cons, if_pos h.1, ih h.2]

theorem dropWhile_eq_nil_of_all {p : Char → Bool} :
    ∀ {l : List Char}, l.all p = true → l.dropWhile p = [] := by
  intro l
  induction l with
  | nil => intro _; rfl
  | cons a as ih =>
    intro h
    rw [List.all_cons, Bool.and_eq_true] at h
    rw [List.dropWhile_cons, if_pos h.1, ih h.2]

theorem takeWhile_append_all {p : Char → Bool} :
    ∀ {l m : List Char}, l.all p = true → (l ++ m).takeWhile p = l ++ m.takeWhile p := by
  intro l
  induction l with
  | nil => intro m _; rfl
  | cons a as ih =>
    intro m h
    rw [List.all_cons, Bool.and_eq_true] at h
    rw [List.cons_append, List.takeWhile_cons, if_pos h.1, ih h.2, List.cons_append]

theorem dropWhile_append_all {p : Char → Bool} :
    ∀ {l m : List Char}, l.all p = true → (l ++ m).dropWhile p = m.dropWhile p := by
  intro l
  induction l with
  | nil => intro m _; rfl
  | cons a as ih =>
    intro m h
    rw [List.all_cons, Bool.and_eq_true] at h
    rw [List.cons_append, List.dropWhile_cons, if_pos h.1, ih h.2]

theorem dropWhile_eq_self_of_all {p : Char → Bool} {l : List Char}
    (h : ∀ c ∈ l, p c = false) : l.dropWhile p = l := by
  cases l with
  | nil => rfl
  | cons a as =>
    rw [List.dropWhile_cons, if_neg]
    simp [h a (List.mem_cons_self a as)]

theorem pyStrip_eq_self {l : List Char} (h : ∀ c ∈ l, c.isWhitespace = false) :
    pyStrip l = l := by
  unfold pyStrip
  rw [dropWhile_eq_self_of_all h,
    dropWhile_eq_self_of_all (fun c hc => h c (List.mem_reverse.mp hc)),
    List.reverse_reverse]

theorem not_ws_of_digit {c : Char} (h : pyIsDigit c = true) : c.isWhitespace = false := by
  cases hw : c.isWhitespace with
  | false => rfl
  | true =>
    exfalso
    simp only [Char.isWhitespace, Bool.or_eq_true, decide_eq_true_eq] at hw
    obtain ((h1 | h1) | h1) | h1 := hw <;> subst h1 <;> exact absurd h (by decide)

theorem toLower_digit {c : Char} (h : pyIsDigit c = true) : c.toLower = c := by
  simp only [pyIsDigit, Bool.and_eq_true, decide_eq_true_eq] at h
  simp only [Char.toLower]
  rw [if_neg (by omega)]

theorem token_shape : ∀ (fuel : Nat) (l t : List Char),
    t ∈ tokensAux fuel l → isNumToken t = true := by
  intro fuel
  induction fuel with
  | zero => intro l t h; simp [tokensAux] at h
  | succ f ih =>
    intro l t h
    cases l with
    | nil => simp [tokensAux] at h
    | cons c cs =>
      simp only [tokensAux] at h
      split at h
      · split at h
        · rename_i hrun
          split at h
          · rename_i hdw
            rw [tokensAux_nil] at h
            rcases List.mem_cons.mp h with rfl | h'
            · unfold isNumToken
              rw [takeWhile_eq_self_of_all (takeWhile_all _ _),
                dropWhile_eq_nil_of_all (takeWhile_all _ _)]
              simpa using hrun
            · simp at h'
          · rename_i a r2 hdw
            split at h
            · rename_i hcond
              rw [Bool.and_eq_true, decide_eq_true_eq, Bool.not_eq_true'] at hcond
              rcases List.mem_cons.mp h with rfl | h'
              · have hnd : ¬ pyIsDigit a = true := by rw [hcond.1]; decide
                have hta : (a :: r2.takeWhile pyIsDigit).takeWhile pyIsDigit = [] := by
                  rw [List.takeWhile_cons, if_neg hnd]
                have hda : (a :: r2.takeWhile pyIsDigit).dropWhile pyIsDigit
                    = a :: r2.takeWhile pyIsDigit := by
                  rw [List.dropWhile_cons, if_neg hnd]
                have htw2 : ((c :: cs).takeWhile pyIsDigit
                      ++ a :: r2.takeWhile pyIsDigit).takeWhile pyIsDigit
                    = (c :: cs).takeWhile pyIsDigit := by
                  rw [takeWhile_append_all (takeWhile_all pyIsDigit (c :: cs)), hta,
                    List.append_nil]
                have hdw2 : ((c :: cs).takeWhile pyIsDigit
                      ++ a :: r2.takeWhile pyIsDigit).dropWhile pyIsDigit
                    = a :: r2.takeWhile pyIsDigit := by
                  rw [dropWhile_append_all (takeWhile_all pyIsDigit (c :: cs)), hda]
                unfold isNumToken
                rw [htw2, hdw2]
                simp only [Bool.and_eq_true, Bool.not_eq_true', decide_eq_true_eq]
                exact ⟨hrun, ⟨hcond.1, hcond.2⟩, takeWhile_all _ _⟩
              · exact ih _ _ h'
            · rcases List.mem_cons.mp h with rfl | h'
              · unfold isNumToken
                rw [takeWhile_eq_self_of_all (takeWhile_all _ _),
                  dropWhile_eq_nil_of_all (takeWhile_all _ _)]
                simpa using hrun
              · exact ih _ _ h'
        · exact ih _ _ h
      · exact ih _ _ h

theorem token_shape_find {l t : List Char} (h : t ∈ findTokens l) : isNumToken t = true :=
  token_shape _ _ _ h

theorem isNumToken_elim {t : List Char} (h : isNumToken t = true) :
    ∃ ds rest, t = ds ++ rest ∧ allDigits ds = true ∧ 4 ≤ ds.length ∧
      (rest = [] ∨ ∃ es, rest = '-' :: es ∧ es ≠ [] ∧ allDigits es = true) := by
  unfold isNumToken at h
  rw [Bool.and_eq_true, decide_eq_true_eq] at h
  refine ⟨t.takeWhile pyIsDigit, t.dropWhile pyIsDigit,
    (List.takeWhile_append_dropWhile pyIsDigit t).symm, takeWhile_all _ _, h.1, ?_⟩
  have h2 := h.2
  rcases hd : t.dropWhile pyIsDigit with _ | ⟨a, es⟩
  · exact Or.inl rfl
  · right
    rw [hd] at h2
    simp only [Bool.and_eq_true, decide_eq_true_eq, Bool.not_eq_true'] at h2
    refine ⟨es, ?_, List.isEmpty_eq_false.mp h2.1.2, h2.2⟩
    rw [h2.1.1]

theorem mem_token_digit_or_dash {t : List Char} (h : isNumToken t = true) :
    ∀ c ∈ t, pyIsDigit c = true ∨ c = '-' := by
  obtain ⟨ds, rest, ht, hds, _, hrest⟩ := isNumToken_elim h
  subst ht
  intro c hc
  simp only [allDigits, List.all_eq_true] at hds
  rcases List.mem_append.mp hc with hc | hc
  · exact Or.inl (hds c hc)
  · rcases hrest with rfl | ⟨es, rfl, _, hes⟩
    · simp at hc
    · simp only [allDigits, List.all_eq_true] at hes
      rcases List.mem_cons.mp hc with rfl | hc
      · exact Or.inr rfl
      · exact Or.inl (hes c hc)

theorem token_ends_digit {t : List Char} (h : isNumToken t = true) :
    ∃ u d, t = u ++ [d] ∧ pyIsDigit d = true := by
  obtain ⟨ds, rest, ht, hds, h4, hrest⟩ := isNumToken_elim h
  subst ht
  simp only [allDigits, List.all_eq_true] at hds
  rcases hrest with rfl | ⟨es, rfl, hne, hes⟩
  · have hne : ds ≠ [] := by intro hnil; rw [hnil] at h4; simp at h4
    refine ⟨(ds ++ []).dropLast, (ds ++ []).getLast (by simpa using hne), ?_, ?_⟩
    · exact (List.dropLast_append_getLast _).symm
    · refine hds _ ?_
      have hx := List.getLast_mem (l := ds ++ []) (by simpa using hne)
      simp only [List.append_nil] at hx ⊢
      exact hx
  · simp only [allDigits, List.all_eq_true] at hes
    have hne2 : ds ++ '-' :: es ≠ [] := by simp
    refine ⟨(ds ++ '-' :: es).dropLast, (ds ++ '-' :: es).getLast hne2,
      (List.dropLast_append_getLast hne2).symm, ?_⟩
    have hmem := List.getLast_mem (l := ds ++ '-' :: es) hne2
    rcases List.mem_append.mp hmem with hm | hm
    · exact hds _ hm
    · rcases List.mem_cons.mp hm with heq | hm
      · exfalso
        have hlast : (ds ++ '-' :: es).getLast hne2 = es.getLast hne := by
          rw [List.getLast_append_of_ne_nil, List.getLast_cons hne]
        rw [hlast] at heq
        have := hes _ (List.getLast_mem hne)
        rw [heq] at this
        exact absurd this (by decide)
      · exact hes _ hm

theorem ne_digit_of_false {d a : Char} (hd : pyIsDigit d = true)
    (ha : pyIsDigit a = false) : a ≠ d := by
  intro h
  rw [h, hd] at ha
  exact absurd ha (by decide)

theorem no_suffix_head {suf m : List Char} {a d : Char} {r1 r2 : List Char}
    (hsuf : suf.reverse = a :: r1) (hm : m.reverse = d :: r2) (hne : a ≠ d) :
    suf.isSuffixOf m = false := by
  cases hx : suf.isSuffixOf m with
  | false => rfl
  | true =>
    exfalso
    simp only [List.isSuffixOf] at hx
    rw [hsuf, hm] at hx
    simp only [List.isPrefixOf, Bool.and_eq_true, beq_iff_eq] at hx
    exact hne hx.1

theorem dropExt_token {t : List Char} (h : isNumToken t = true) : dropExt t = t := by
  obtain ⟨u, d, ht, hd⟩ := token_ends_digit h
  have hlowrev : (t.map Char.toLower).reverse = d :: (u.reverse.map Char.toLower) := by
    subst ht
    rw [← List.map_reverse, List.reverse_append]
    simp [toLower_digit hd]
  have hnone : extSuffixes.find? (fun suf => suf.isSuffixOf (t.map Char.toLower)) = none := by
    rw [List.find?_eq_none]
    intro suf hsuf
    simp only [extSuffixes, List.mem_cons, List.not_mem_nil, or_false] at hsuf
    have hdig : pyIsDigit d = true := hd
    rcases hsuf with rfl | rfl | rfl | rfl
    · simp [no_suffix_head (by decide : (".xlsx".data.reverse : List Char) = 'x' :: ['s', 'l', 'x', '.'])
        hlowrev (ne_digit_of_false hdig (by decide))]
    · simp [no_suffix_head (by decide : (".xls".data.reverse : List Char) = 's' :: ['l', 'x', '.'])
        hlowrev (ne_digit_of_false hdig (by decide))]
    · simp [no_suffix_head (by decide : (".csv".data.reverse : List Char) = 'v' :: ['s', 'c', '.'])
        hlowrev (ne_digit_of_false hdig (by decide))]
    · simp [no_suffix_head (by decide : (".txt".data.reverse : List Char) = 't' :: ['x', 't', '.'])
        hlowrev (ne_digit_of_false hdig (by decide))]
  simp only [dropExt, hnone]

theorem tokensAux_run (f : Nat) {ds : List Char} (h1 : allDigits ds = true)
    (h4 : 4 ≤ ds.length) : tokensAux (f + 1) ds = [ds] := by
  cases ds with
  | nil => simp at h4
  | cons c cs =>
    have hc : pyIsDigit c = true := by
      have h1' := h1
      simp only [allDigits, List.all_cons, Bool.and_eq_true] at h1'
      exact h1'.1
    have htw : (c :: cs).takeWhile pyIsDigit = c :: cs := takeWhile_eq_self_of_all h1
    have hdw : (c :: cs).dropWhile pyIsDigit = [] := dropWhile_eq_nil_of_all h1
    simp only [tokensAux, htw, hdw]
    rw [if_pos hc, if_pos h4, tokensAux_nil]

theorem tokensAux_ext (f : Nat) {ds es : List Char} (h1 : allDigits ds = true)
    (h4 : 4 ≤ ds.length) (h2 : allDigits es = true) (hne : es ≠ []) :
    tokensAux (f + 1) (ds ++ '-' :: es) = [ds ++ '-' :: es] := by
  cases ds with
  | nil => simp at h4
  | cons c cs =>
    have hc : pyIsDigit c = true := by
      have h1' := h1
      simp only [allDigits, List.all_cons, Bool.and_eq_true] at h1'
      exact h1'.1
    have htw : ((c :: cs) ++ '-' :: es).takeWhile pyIsDigit = c :: cs := by
      rw [takeWhile_append_all h1, List.takeWhile_cons, if_neg (by decide), List.append_nil]
    have hdw : ((c :: cs) ++ '-' :: es).dropWhile pyIsDigit = '-' :: es := by
      rw [dropWhile_append_all h1, List.dropWhile_cons, if_neg (by decide)]
    rw [List.cons_append] at htw hdw
    rw [List.cons_append]
    simp only [tokensAux, htw, hdw, takeWhile_eq_self_of_all h2, dropWhile_eq_nil_of_all h2,
      tokensAux_nil]
    rw [if_pos hc, if_pos h4, if_pos (by simp [hne]), List.cons_append]

theorem findTokens_token {t : List Char} (h : isNumToken t = true) : findTokens t = [t] := by
  obtain ⟨ds, rest, ht, hds, h4, hrest⟩ := isNumToken_elim h
  subst ht
  rcases hrest with rfl | ⟨es, rfl, hne, hes⟩
  · rw [List.append_nil]
    unfold findTokens
    obtain ⟨n, hn⟩ : ∃ n, ds.length = n + 1 := ⟨ds.length - 1, by omega⟩
    rw [hn]
    exact tokensAux_run n hds h4
  · unfold findTokens
    have hpos : 1 ≤ (ds ++ '-' :: es).length := by
      simp only [List.length_append, List.length_cons]
      omega
    obtain ⟨n, hn⟩ : ∃ n, (ds ++ '-' :: es).length = n + 1 :=
      ⟨(ds ++ '-' :: es).length - 1, by omega⟩
    rw [hn]
    exact tokensAux_ext n hds h4 hes hne

theorem getLastD_mem_cons : ∀ (ts : List (List Char)) (t : List Char), ts.getLastD t ∈ t :: ts := by
  intro ts
  induction ts with
  | nil => intro t; simp [List.getLastD]
  | cons b bs ih =>
    intro t
    rw [List.getLastD_cons]
    exact List.mem_cons_of_mem _ (ih b)

theorem token_normalize_fix {t : List Char} (h : isNumToken t = true) : normalizeChars t = t := by
  have hchars : ∀ c ∈ t, c.isWhitespace = false := fun c hc =>
    (mem_token_digit_or_dash h c hc).elim not_ws_of_digit (fun h' => by rw [h']; decide)
  have hclean : cleanChars t = t := by
    unfold cleanChars
    rw [pyStrip_eq_self hchars, dropExt_token h]
  unfold normalizeChars
  rw [hclean, findTokens_token h]
  rfl

theorem tokensAux_ne_nil {f : Nat} {c : Char} {cs : List Char} (hc : pyIsDigit c = true)
    (h4 : 4 ≤ ((c :: cs).takeWhile pyIsDigit).length) : tokensAux (f + 1) (c :: cs) ≠ [] := by
  simp only [tokensAux]
  rw [if_pos hc, if_pos h4]
  split
  · simp
  · split <;> simp

theorem tokens_nil_iff : ∀ (fuel : Nat) (l : List Char), l.length ≤ fuel →
    (tokensAux fuel l = [] ↔ hasRun4 l = false) := by
  intro fuel
  induction fuel with
  | zero =>
    intro l h
    rw [Nat.le_zero, List.length_eq_zero] at h
    subst h
    simp [tokensAux, hasRun4]
  | succ f ih =>
    intro l h
    cases l with
    | nil => simp [tokensAux, hasRun4]
    | cons c cs =>
      have hlen : cs.length ≤ f := by simpa using h
      cases hc : pyIsDigit c with
      | false =>
        have htw : (c :: cs).takeWhile pyIsDigit = [] := by
          rw [List.takeWhile_cons, if_neg (by rw [hc]; exact Bool.false_ne_true)]
        simp only [tokensAux, hasRun4, htw]
        rw [if_neg (by rw [hc]; exact Bool.false_ne_true)]
        simpa using ih cs hlen
      | true =>
        by_cases h4 : 4 ≤ ((c :: cs).takeWhile pyIsDigit).length
        · constructor
          · intro habs
            exact absurd habs (tokensAux_ne_nil hc h4)
          · intro habs
            exfalso
            simp only [hasRun4] at habs
            rw [Bool.or_eq_false_iff, decide_eq_false_iff_not] at habs
            exact habs.1 h4
        · simp only [tokensAux, hasRun4]
          rw [if_pos hc, if_neg h4, Bool.or_eq_false_iff, decide_eq_false_iff_not]
          rw [ih cs hlen]
          tauto

/-! ### C6 and C7 -/

/-- C6 counterexample: `normalize` is not idempotent as claimed — on
`"abc .xlsx"` the first pass removes the extension and exposes a trailing
space (`"abc "`), which a second pass then strips. -/
theorem claim_C6_counterexample :
    normalizeChars (normalizeChars "abc .xlsx".data) ≠ normalizeChars "abc .xlsx".data := by
  decide

/-- C6 (amended): normalization is idempotent on every string whose cleaned
form (strip, then one extension removal) is itself stable under cleaning; in
particular on every string where a numeric token is extracted.  It is not
idempotent in general, because removing a trailing extension can expose
trailing whitespace or a second trailing extension. -/
theorem claim_C6_normalize_idempotent_amended (s : List Char)
    (h : cleanChars (cleanChars s) = cleanChars s) :
    normalizeChars (normalizeChars s) = normalizeChars s := by
  cases hts : findTokens (cleanChars s) with
  | nil =>
    have h1 : normalizeChars s = cleanChars s := by
      unfold normalizeChars
      rw [hts]
    rw [h1]
    unfold normalizeChars
    rw [h, hts]
  | cons t ts =>
    have h1 : normalizeChars s = (t :: ts).getLastD [] := by
      unfold normalizeChars
      rw [hts]
    have hmem : (t :: ts).getLastD [] ∈ t :: ts := by
      rw [List.getLastD_cons]
      exact getLastD_mem_cons ts t
    have htok : isNumToken ((t :: ts).getLastD []) = true := by
      refine token_shape_find (l := cleanChars s) ?_
      rw [hts]
      exact hmem
    rw [h1]
    exact token_normalize_fix htok

/-- Witness for C6's amended theorem at the concrete input `"20250214-2.xlsx"`. -/
theorem claim_C6_witness :
    cleanChars (cleanChars "20250214-2.xlsx".data) = cleanChars "20250214-2.xlsx".data
    ∧ normalizeChars (normalizeChars "20250214-2.xlsx".data) =
        normalizeChars "20250214-2.xlsx".data :=
  ⟨by decide, claim_C6_normalize_idempotent_amended _ (by decide)⟩

/-- C7: `normalize_label` strips whitespace and one trailing extension
(`cleanChars`), then returns the last regex match when one exists, else the
cleaned string; every extracted match is a numeric token of at least 4 digits
optionally followed by `-<digits>`, and a match exists exactly when the
cleaned string contains a run of 4 consecutive digits.  Concretely,
`normalize("20250214-2.xlsx") = "20250214-2"` and
`normalize("  Sample42  ") = "Sample42"`. -/
theorem claim_C7_label_extraction :
    normalizeChars "20250214-2.xlsx".data = "20250214-2".data
    ∧ normalizeChars "  Sample42  ".data = "Sample42".data
    ∧ ∀ s : List Char,
        (findTokens (cleanChars s)).all isNumToken = true
        ∧ normalizeChars s =
            (match findTokens (cleanChars s) with
             | [] => cleanChars s
             | t :: ts => (t :: ts).getLastD [])
        ∧ (findTokens (cleanChars s) = [] ↔ hasRun4 (cleanChars s) = false) := by
  refine ⟨by decide, by decide, fun s => ⟨?_, rfl, tokens_nil_iff _ _ (le_refl _)⟩⟩
  rw [List.all_eq_true]
  intro t ht
  exact token_shape_find ht

/-! ### Frame lemmas -/

theorem lookupCell_cons (m : String) (ms : List String) (c : Cell) (cs : List Cell)
    (n : String) :
    lookupCell (m :: ms) (c :: cs) n = if m = n then c else lookupCell ms cs n := rfl

theorem setRowCell_cons (m : String) (ms : List String) (c : Cell) (cs : List Cell)
    (n : String) (v : Cell) :
    setRowCell (m :: ms) (c :: cs) n v =
      if m = n then v :: cs else c :: setRowCell ms cs n v := rfl

theorem recLookup_cons (k : String) (v : Cell) (r : List (String × Cell)) (n : String) :
    recLookup ((k, v) :: r) n = if k = n then v else recLookup r n := rfl

theorem lookupCell_map (names : List String) (g : String → Cell) (n : String) :
    n ∈ names → lookupCell names (names.map g) n = g n := by
  induction names with
  | nil => intro h; simp at h
  | cons m ms ih =>
    intro h
    rw [List.map_cons, lookupCell_cons]
    by_cases hm : m = n
    · rw [if_pos hm, hm]
    · rw [if_neg hm]
      refine ih ?_
      rcases List.mem_cons.mp h with h' | h'
      · exact absurd h'.symm hm
      · exact h'

theorem lookupCell_not_mem : ∀ (names : List String) (r : List Cell) (n : String),
    n ∉ names → lookupCell names r n = Cell.na := by
  intro names
  induction names with
  | nil => intro r n _; cases r <;> rfl
  | cons m ms ih =>
    intro r n h
    cases r with
    | nil => rfl
    | cons c cs =>
      rw [lookupCell_cons, if_neg (by intro hmn; subst hmn; exact h (List.mem_cons_self _ _))]
      exact ih cs n (fun hn => h (List.mem_cons_of_mem m hn))

theorem lookupCell_setRowCell_ne : ∀ (names : List String) (r : List Cell)
    {x n : String} (v : Cell), x ≠ n →
    lookupCell names (setRowCell names r n v) x = lookupCell names r x := by
  intro names
  induction names with
  | nil => intro r x n v _; rfl
  | cons m ms ih =>
    intro r x n v hxn
    cases r with
    | nil => rfl
    | cons c cs =>
      rw [setRowCell_cons]
      by_cases hmn : m = n
      · subst hmn
        rw [if_pos rfl, lookupCell_cons, lookupCell_cons,
          if_neg (fun h => hxn h.symm), if_neg (fun h => hxn h.symm)]
      · rw [if_neg hmn, lookupCell_cons, lookupCell_cons]
        by_cases hmx : m = x
        · rw [if_pos hmx, if_pos hmx]
        · rw [if_neg hmx, if_neg hmx]
          exact ih cs v hxn

theorem lookupCell_setRowCell_self : ∀ (names : List String) (r : List Cell)
    {n : String} (v : Cell), r.length = names.length → n ∈ names →
    lookupCell names (setRowCell names r n v) n = v := by
  intro names
  induction names with
  | nil => intro r n v _ h; simp at h
  | cons m ms ih =>
    intro r n v hlen h
    cases r with
    | nil => simp at hlen
    | cons c cs =>
      rw [setRowCell_cons]
      by_cases hmn : m = n
      · rw [if_pos hmn, lookupCell_cons, if_pos hmn]
      · rw [if_neg hmn, lookupCell_cons, if_neg hmn]
        refine ih cs v (by simpa using hlen) ?_
        rcases List.mem_cons.mp h with h' | h'
        · exact absurd h'.symm hmn
        · exact h'

theorem setRowCell_length : ∀ (names : List String) (r : List Cell) (n : String) (v : Cell),
    (setRowCell names r n v).length = r.length := by
  intro names
  induction names with
  | nil => intro r n v; rfl
  | cons m ms ih =>
    intro r n v
    cases r with
    | nil => rfl
    | cons c cs =>
      rw [setRowCell_cons]
      by_cases hmn : m = n
      · rw [if_pos hmn]
        rfl
      · rw [if_neg hmn, List.length_cons, List.length_cons, ih]

theorem lookupCell_append_ne : ∀ (names : List String) (r : List Cell) {x n : String}
    (v : Cell), r.length = names.length → x ≠ n →
    lookupCell (names ++ [n]) (r ++ [v]) x = lookupCell names r x := by
  intro names
  induction names with
  | nil =>
    intro r x n v hlen hxn
    rw [List.length_nil, List.length_eq_zero] at hlen
    subst hlen
    rw [List.nil_append, List.nil_append, lookupCell_cons, if_neg (fun h => hxn h.symm)]
  | cons m ms ih =>
    intro r x n v hlen hxn
    cases r with
    | nil => simp at hlen
    | cons c cs =>
      rw [List.cons_append, List.cons_append, lookupCell_cons, lookupCell_cons]
      by_cases hmx : m = x
      · rw [if_pos hmx, if_pos hmx]
      · rw [if_neg hmx, if_neg hmx]
        exact ih cs v (by simpa using hlen) hxn

theorem lookupCell_append_self : ∀ (names : List String) (r : List Cell) {n : String}
    (v : Cell), r.length = names.length → n ∉ names →
    lookupCell (names ++ [n]) (r ++ [v]) n = v := by
  intro names
  induction names with
  | nil =>
    intro r n v hlen _
    rw [List.length_nil, List.length_eq_zero] at hlen
    subst hlen
    rw [List.nil_append, List.nil_append, lookupCell_cons, if_pos rfl]
  | cons m ms ih =>
    intro r n v hlen hn
    cases r with
    | nil => simp at hlen
    | cons c cs =>
      rw [List.cons_append, List.cons_append, lookupCell_cons,
        if_neg (by intro hmn; subst hmn; exact hn (List.mem_cons_self _ _))]
      exact ih cs v (by simpa using hlen) (fun h => hn (List.mem_cons_of_mem m h))

theorem recLookup_not_mem : ∀ (r : List (String × Cell)) (n : String),
    n ∉ r.map Prod.fst → recLookup r n = Cell.na := by
  intro r
  induction r with
  | nil => intro n _; rfl
  | cons p ps ih =>
    intro n h
    obtain ⟨k, v⟩ := p
    rw [recLookup_cons, if_neg (by intro hkn; subst hkn; exact h (by simp))]
    exact ih n (fun hn => h (by simp [hn]))

theorem mem_dedupFirstAux : ∀ (l seen : List String) (y : String),
    y ∈ dedupFirstAux seen l ↔ y ∈ l ∧ y ∉ seen := by
  intro l
  induction l with
  | nil => intro seen y; simp [dedupFirstAux]
  | cons x xs ih =>
    intro seen y
    rw [dedupFirstAux]
    by_cases hx : x ∈ seen
    · rw [if_pos hx, ih]
      constructor
      · rintro ⟨hy, hys⟩
        exact ⟨List.mem_cons_of_mem x hy, hys⟩
      · rintro ⟨hy, hys⟩
        refine ⟨?_, hys⟩
        rcases List.mem_cons.mp hy with rfl | hy'
        · exact absurd hx hys
        · exact hy'
    · rw [if_neg hx]
      constructor
      · intro hy
        rcases List.mem_cons.mp hy with rfl | hy'
        · exact ⟨List.mem_cons_self _ _, hx⟩
        · obtain ⟨h1, h2⟩ := (ih (x :: seen) y).mp hy'
          exact ⟨List.mem_cons_of_mem x h1,
            fun hs => h2 (List.mem_cons_of_mem x hs)⟩
      · rintro ⟨hy, hys⟩
        rcases List.mem_cons.mp hy with rfl | hy'
        · exact List.mem_cons_self _ _
        · by_cases hxy : y = x
          · subst hxy; exact List.mem_cons_self _ _
          · exact List.mem_cons_of_mem x ((ih (x :: seen) y).mpr
              ⟨hy', by simp [hxy, hys]⟩)

theorem mem_dedupFirst (l : List String) (y : String) : y ∈ dedupFirst l ↔ y ∈ l := by
  rw [dedupFirst, mem_dedupFirstAux]
  simp

theorem nodup_dedupFirstAux : ∀ (l seen : List String), (dedupFirstAux seen l).Nodup := by
  intro l
  induction l with
  | nil => intro seen; exact List.nodup_nil
  | cons x xs ih =>
    intro seen
    rw [dedupFirstAux]
    by_cases hx : x ∈ seen
    · rw [if_pos hx]; exact ih seen
    · rw [if_neg hx]
      refine List.Nodup.cons ?_ (ih (x :: seen))
      intro hmem
      exact ((mem_dedupFirstAux xs (x :: seen) x).mp hmem).2 (List.mem_cons_self _ _)

theorem nodup_dedupFirst (l : List String) : (dedupFirst l).Nodup := nodup_dedupFirstAux l []

theorem mem_insertSorted (x y : String) : ∀ (l : List String),
    y ∈ insertSorted x l ↔ y = x ∨ y ∈ l := by
  intro l
  induction l with
  | nil => simp [insertSorted]
  | cons z zs ih =>
    rw [insertSorted]
    by_cases h : strLe x z = true
    · rw [if_pos h]; simp
    · rw [if_neg h]
      constructor
      · intro hy
        rcases List.mem_cons.mp hy with rfl | hy'
        · simp
        · rcases (ih).mp hy' with rfl | hy''
          · exact Or.inl rfl
          · exact Or.inr (List.mem_cons_of_mem z hy'')
      · intro hy
        rcases hy with rfl | hy'
        · exact List.mem_cons_of_mem z ((ih).mpr (Or.inl rfl))
        · rcases List.mem_cons.mp hy' with rfl | hy''
          · exact List.mem_cons_self _ _
          · exact List.mem_cons_of_mem z ((ih).mpr (Or.inr hy''))

theorem mem_pySorted (y : String) : ∀ (l : List String), y ∈ pySorted l ↔ y ∈ l := by
  intro l
  induction l with
  | nil => simp [pySorted]
  | cons x xs ih =>
    rw [pySorted, mem_insertSorted, ih]
    simp

theorem colVals_length (f : Frame) (n : String) : (f.colVals n).length = f.rows.length := by
  simp [Frame.colVals]

theorem zip_map_fst (g : List Cell → Cell) : ∀ (rows : List (List Cell)) (vs : List Cell),
    rows.length = vs.length →
    (rows.zip vs).map (fun p => g p.1) = rows.map g := by
  intro rows
  induction rows with
  | nil => intro vs _; rfl
  | cons r rs ih =>
    intro vs hlen
    cases vs with
    | nil => simp at hlen
    | cons v vs' =>
      rw [List.zip_cons_cons, List.map_cons, List.map_cons, ih vs' (by simpa using hlen)]

theorem setCol_rows_length (f : Frame) (n : String) (vs : List Cell)
    (hlen : vs.length = f.rows.length) :
    (f.setCol n vs).rows.length = f.rows.length := by
  unfold Frame.setCol
  split <;> simp [List.length_zip, hlen]

theorem setCol_WF (f : Frame) (n : String) (vs : List Cell) (hwf : f.WF)
    (_hlen : vs.length = f.rows.length) : (f.setCol n vs).WF := by
  unfold Frame.setCol
  by_cases h : n ∈ f.colNames
  · rw [if_pos h]
    intro r hr
    obtain ⟨p, hp, rfl⟩ := List.mem_map.mp hr
    rw [setRowCell_length]
    exact hwf p.1 (List.of_mem_zip hp).1
  · rw [if_neg h]
    intro r hr
    obtain ⟨p, hp, rfl⟩ := List.mem_map.mp hr
    simp [hwf p.1 (List.of_mem_zip hp).1]

theorem mem_setCol_colNames (f : Frame) (n : String) (vs : List Cell) (x : String) :
    x ∈ (f.setCol n vs).colNames ↔ x ∈ f.colNames ∨ x = n := by
  unfold Frame.setCol
  by_cases h : n ∈ f.colNames
  · rw [if_pos h]
    constructor
    · exact Or.inl
    · rintro (hx | rfl)
      · exact hx
      · exact h
  · rw [if_neg h]
    simp

theorem colVals_setCol_ne (f : Frame) {x n : String} (vs : List Cell)
    (hwf : f.WF) (hlen : vs.length = f.rows.length) (hxn : x ≠ n) :
    (f.setCol n vs).colVals x = f.colVals x := by
  unfold Frame.setCol Frame.colVals
  by_cases h : n ∈ f.colNames
  · rw [if_pos h]
    show ((f.rows.zip vs).map _).map _ = _
    rw [List.map_map]
    simp only [Function.comp_def]
    have hstep : ∀ p ∈ f.rows.zip vs,
        lookupCell f.colNames (setRowCell f.colNames p.1 n p.2) x
          = lookupCell f.colNames p.1 x := by
      intro p _
      exact lookupCell_setRowCell_ne _ _ _ hxn
    rw [List.map_congr_left hstep]
    exact zip_map_fst (fun r => lookupCell f.colNames r x) f.rows vs hlen.symm
  · rw [if_neg h]
    show ((f.rows.zip vs).map _).map _ = _
    rw [List.map_map]
    simp only [Function.comp_def]
    have hstep : ∀ p ∈ f.rows.zip vs,
        lookupCell (f.colNames ++ [n]) (p.1 ++ [p.2]) x
          = lookupCell f.colNames p.1 x := by
      intro p hp
      exact lookupCell_append_ne _ _ _ (hwf p.1 (List.of_mem_zip hp).1) hxn
    rw [List.map_congr_left hstep]
    exact zip_map_fst (fun r => lookupCell f.colNames r x) f.rows vs hlen.symm

theorem colVals_setCol_self (f : Frame) (n : String) (vs : List Cell)
    (hwf : f.WF) (hlen : vs.length = f.rows.length) :
    (f.setCol n vs).colVals n = vs := by
  unfold Frame.setCol Frame.colVals
  by_cases h : n ∈ f.colNames
  · rw [if_pos h]
    show ((f.rows.zip vs).map _).map _ = _
    rw [List.map_map]
    simp only [Function.comp_def]
    have hstep : ∀ p ∈ f.rows.zip vs,
        lookupCell f.colNames (setRowCell f.colNames p.1 n p.2) n = p.2 := by
      intro p hp
      exact lookupCell_setRowCell_self _ _ _ (hwf p.1 (List.of_mem_zip hp).1) h
    rw [List.map_congr_left hstep]
    exact List.map_snd_zip _ _ (by omega)
  · rw [if_neg h]
    show ((f.rows.zip vs).map _).map _ = _
    rw [List.map_map]
    simp only [Function.comp_def]
    have hstep : ∀ p ∈ f.rows.zip vs,
        lookupCell (f.colNames ++ [n]) (p.1 ++ [p.2]) n = p.2 := by
      intro p hp
      exact lookupCell_append_self _ _ _ (hwf p.1 (List.of_mem_zip hp).1) h
    rw [List.map_congr_left hstep]
    exact List.map_snd_zip _ _ (by omega)

theorem colVals_not_mem (f : Frame) (n : String) (h : n ∉ f.colNames) :
    f.colVals n = List.replicate f.rows.length Cell.na := by
  unfold Frame.colVals
  rw [List.eq_replicate_iff]
  refine ⟨by simp, ?_⟩
  intro b hb
  obtain ⟨r, _, rfl⟩ := List.mem_map.mp hb
  exact lookupCell_not_mem _ _ _ h

theorem selectCols_colNames (f : Frame) (names : List String) :
    (f.selectCols names).colNames = names := rfl

theorem selectCols_rows_length (f : Frame) (names : List String) :
    (f.selectCols names).rows.length = f.rows.length := by
  simp [Frame.selectCols]

theorem selectCols_WF (f : Frame) (names : List String) : (f.selectCols names).WF := by
  intro r hr
  obtain ⟨r0, _, rfl⟩ := List.mem_map.mp hr
  simp [Frame.selectCols]

theorem colVals_selectCols (f : Frame) (names : List String) (n : String) (h : n ∈ names) :
    (f.selectCols names).colVals n = f.colVals n := by
  unfold Frame.selectCols Frame.colVals
  show (f.rows.map _).map _ = _
  rw [List.map_map]
  simp only [Function.comp_def]
  refine List.map_congr_left ?_
  intro r _
  exact lookupCell_map names (lookupCell f.colNames r) n h

theorem ensureCols_spec : ∀ (order : List String) (f : Frame), f.WF →
    (ensureCols order f).WF
    ∧ (ensureCols order f).rows.length = f.rows.length
    ∧ (∀ x, x ∈ (ensureCols order f).colNames ↔ x ∈ f.colNames ∨ x ∈ order)
    ∧ (∀ x, x ∈ f.colNames → (ensureCols order f).colVals x = f.colVals x)
    ∧ (∀ x, x ∉ f.colNames →
        (ensureCols order f).colVals x = List.replicate f.rows.length Cell.na) := by
  intro order
  induction order with
  | nil =>
    intro f hwf
    refine ⟨hwf, rfl, fun x => by rw [show ensureCols [] f = f from rfl]; simp,
      fun x _ => rfl, fun x hx => colVals_not_mem f x hx⟩
  | cons c cs ih =>
    intro f hwf
    show _ ∧ _
    rw [show ensureCols (c :: cs) f
        = ensureCols cs
          (if c ∈ f.colNames then f
           else f.setCol c (List.replicate f.rows.length Cell.na)) from rfl]
    by_cases hc : c ∈ f.colNames
    · rw [if_pos hc]
      obtain ⟨w1, w2, w3, w4, w5⟩ := ih f hwf
      refine ⟨w1, w2, ?_, w4, w5⟩
      intro x
      rw [w3 x]
      constructor
      · rintro (hx | hx)
        · exact Or.inl hx
        · exact Or.inr (List.mem_cons_of_mem c hx)
      · rintro (hx | hx)
        · exact Or.inl hx
        · rcases List.mem_cons.mp hx with rfl | hx'
          · exact Or.inl hc
          · exact Or.inr hx'
    · rw [if_neg hc]
      set f' := f.setCol c (List.replicate f.rows.length Cell.na) with hf'
      have hlen : (List.replicate f.rows.length Cell.na).length = f.rows.length := by simp
      have hwf' : f'.WF := setCol_WF f c _ hwf hlen
      have hrows' : f'.rows.length = f.rows.length := setCol_rows_length f c _ hlen
      obtain ⟨w1, w2, w3, w4, w5⟩ := ih f' hwf'
      refine ⟨w1, by rw [w2, hrows'], ?_, ?_, ?_⟩
      · intro x
        rw [w3 x, mem_setCol_colNames]
        constructor
        · rintro ((hx | rfl) | hx)
          · exact Or.inl hx
          · exact Or.inr (List.mem_cons_self _ _)
          · exact Or.inr (List.mem_cons_of_mem c hx)
        · rintro (hx | hx)
          · exact Or.inl (Or.inl hx)
          · rcases List.mem_cons.mp hx with rfl | hx'
            · exact Or.inl (Or.inr rfl)
            · exact Or.inr hx'
      · intro x hx
        have hxc : x ≠ c := fun h => hc (h ▸ hx)
        rw [w4 x ((mem_setCol_colNames f c _ x).mpr (Or.inl hx))]
        exact colVals_setCol_ne f _ hwf hlen hxc
      · intro x hx
        by_cases hxc : x = c
        · subst hxc
          rw [w4 x ((mem_setCol_colNames f x _ x).mpr (Or.inr rfl))]
          rw [colVals_setCol_self f x _ hwf hlen]
        · have hx' : x ∉ f'.colNames := by
            rw [mem_setCol_colNames]
            rintro (h | h)
            · exact hx h
            · exact hxc h
          rw [w5 x hx', hrows']

theorem frameOfRecords_colNames (recs : List (List (String × Cell))) :
    (frameOfRecords recs).colNames
      = dedupFirst ((recs.map (fun r => r.map Prod.fst)).flatten) := rfl

theorem frameOfRecords_rows (recs : List (List (String × Cell))) :
    (frameOfRecords recs).rows
      = recs.map (fun r => (frameOfRecords recs).colNames.map (recLookup r)) := rfl

theorem frameOfRecords_WF (recs : List (List (String × Cell))) :
    (frameOfRecords recs).WF := by
  intro r hr
  rw [frameOfRecords_rows] at hr
  obtain ⟨r0, _, rfl⟩ := List.mem_map.mp hr
  simp

theorem mem_frameOfRecords_colNames (recs : List (List (String × Cell))) (n : String) :
    n ∈ (frameOfRecords recs).colNames ↔ ∃ r ∈ recs, n ∈ r.map Prod.fst := by
  rw [frameOfRecords_colNames, mem_dedupFirst, List.mem_flatten]
  constructor
  · rintro ⟨l, hl, hn⟩
    obtain ⟨r, hr, rfl⟩ := List.mem_map.mp hl
    exact ⟨r, hr, hn⟩
  · rintro ⟨r, hr, hn⟩
    exact ⟨r.map Prod.fst, List.mem_map_of_mem _ hr, hn⟩

theorem colVals_frameOfRecords (recs : List (List (String × Cell))) (n : String) :
    (frameOfRecords recs).colVals n = recs.map (fun r => recLookup r n) := by
  unfold Frame.colVals
  rw [frameOfRecords_rows, List.map_map]
  simp only [Function.comp_def]
  refine List.map_congr_left ?_
  intro r hr
  by_cases hn : n ∈ (frameOfRecords recs).colNames
  · exact lookupCell_map _ _ _ hn
  · rw [lookupCell_not_mem _ _ _ hn, recLookup_not_mem]
    intro hk
    exact hn ((mem_frameOfRecords_colNames recs n).mpr ⟨r, hr, hk⟩)

theorem frameOfRecords_rows_length (recs : List (List (String × Cell))) :
    (frameOfRecords recs).rows.length = recs.length := by
  rw [frameOfRecords_rows, List.length_map]

/-! ### `_ensure_psat_column` lemmas -/

theorem ensurePsat_derives (f : Frame) (hne : f.pyEmpty = false)
    (h1 : ("Psat (MPa)" : String) ∉ f.colNames) (h2 : ("P CO2 (bar)" : String) ∈ f.colNames) :
    ensurePsat f = f.setCol "Psat (MPa)"
      ((f.colVals "P CO2 (bar)").map (fun c => divTen (toNumericCell c))) := by
  unfold ensurePsat
  rw [if_neg (by simp [hne]), if_pos ⟨Or.inl h1, h2⟩]

theorem ensurePsat_no_pco2 (f : Frame) (h2 : ("P CO2 (bar)" : String) ∉ f.colNames) :
    ensurePsat f = f := by
  unfold ensurePsat
  split
  · rfl
  · rw [if_neg (fun hc => h2 hc.2)]

theorem ensurePsat_preserves_supplied (f : Frame)
    (h1 : ("Psat (MPa)" : String) ∈ f.colNames)
    (h2 : allNa (f.colVals "Psat (MPa)") = false) :
    ensurePsat f = f := by
  have hcond : ¬ ((("Psat (MPa)" : String) ∉ f.colNames
      ∨ (("Psat (MPa)" : String) ∈ f.colNames ∧ allNa (f.colVals "Psat (MPa)") = true))
      ∧ ("P CO2 (bar)" : String) ∈ f.colNames) := by
    rintro ⟨hor, _⟩
    rcases hor with h | ⟨_, hna⟩
    · exact h h1
    · rw [h2] at hna
      exact absurd hna (by decide)
  unfold ensurePsat
  by_cases he : f.pyEmpty = true
  · rw [if_pos he]
  · rw [if_neg he, if_neg hcond]

theorem ensurePsat_rows_length (f : Frame) :
    (ensurePsat f).rows.length = f.rows.length := by
  unfold ensurePsat
  split
  · rfl
  · split
    · rw [setCol_rows_length]
      rw [List.length_map, colVals_length]
    · rfl

theorem ensurePsat_WF (f : Frame) (hwf : f.WF) : (ensurePsat f).WF := by
  unfold ensurePsat
  split
  · exact hwf
  · split
    · exact setCol_WF f _ _ hwf (by rw [List.length_map, colVals_length])
    · exact hwf

theorem colVals_ensurePsat_ne (f : Frame) (hwf : f.WF) {x : String}
    (hx : x ≠ "Psat (MPa)") : (ensurePsat f).colVals x = f.colVals x := by
  unfold ensurePsat
  split
  · rfl
  · split
    · exact colVals_setCol_ne f _ hwf (by rw [List.length_map, colVals_length]) hx
    · rfl

theorem mem_ensurePsat_of_mem (f : Frame) {x : String} (hx : x ∈ f.colNames) :
    x ∈ (ensurePsat f).colNames := by
  unfold ensurePsat
  split
  · exact hx
  · split
    · exact (mem_setCol_colNames f _ _ x).mpr (Or.inl hx)
    · exact hx

/-! ### `merge_for_foam` lemmas -/

theorem dedupFirst_eq_nil {l : List String} (h : dedupFirst l = []) : l = [] := by
  cases l with
  | nil => rfl
  | cons x xs =>
    exfalso
    have hx : x ∈ dedupFirst (x :: xs) := (mem_dedupFirst _ x).mpr (List.mem_cons_self _ _)
    rw [h] at hx
    simp at hx

theorem mergeForFoam_empty_eq (foam : String) (doe den pdr oc dsc sem : Frame)
    (he : dedupFirst (mergePool doe den pdr oc dsc sem).flatten = []) :
    mergeForFoam foam doe den pdr oc dsc sem = ⟨[], []⟩ := by
  simp only [mergeForFoam]
  rw [he]
  simp

theorem mergeForFoam_nonempty_eq (foam : String) (doe den pdr oc dsc sem : Frame)
    (hne : dedupFirst (mergePool doe den pdr oc dsc sem).flatten ≠ []) :
    mergeForFoam foam doe den pdr oc dsc sem
      = (ensureCols BASE_NEW_COLUMN_ORDER (ensurePsat (frameOfRecords
          ((pySorted (dedupFirst (mergePool doe den pdr oc dsc sem).flatten)).map
            (buildRow foam doe den pdr oc dsc sem))))).selectCols BASE_NEW_COLUMN_ORDER := by
  simp only [mergeForFoam]
  rw [if_neg (by simp [hne])]

theorem mergeForFoam_colNames_or (foam : String) (doe den pdr oc dsc sem : Frame) :
    (mergeForFoam foam doe den pdr oc dsc sem).colNames = BASE_NEW_COLUMN_ORDER
    ∨ mergeForFoam foam doe den pdr oc dsc sem = ⟨[], []⟩ := by
  by_cases h : dedupFirst (mergePool doe den pdr oc dsc sem).flatten = []
  · exact Or.inr (mergeForFoam_empty_eq foam doe den pdr oc dsc sem h)
  · left
    rw [mergeForFoam_nonempty_eq foam doe den pdr oc dsc sem h]
    rfl

theorem buildRow_label (foam : String) (doe den pdr oc dsc sem : Frame) (lbl : String) :
    recLookup (buildRow foam doe den pdr oc dsc sem lbl) "Label" = Cell.str lbl := by
  unfold buildRow
  simp only [List.cons_append, List.nil_append]
  rw [recLookup_cons, if_pos rfl]

theorem mem_mergePool (doe den pdr oc dsc sem : Frame) (L : List String) :
    L ∈ mergePool doe den pdr oc dsc sem
      ↔ ∃ f ∈ [doe, den, pdr, oc, dsc, sem],
          (f.pyEmpty = false ∧ ("Label" : String) ∈ f.colNames)
          ∧ L = (f.colVals "Label").map normCell := by
  unfold mergePool
  rw [List.mem_filterMap]
  constructor
  · rintro ⟨f, hf, hsome⟩
    by_cases hc : f.pyEmpty = false ∧ ("Label" : String) ∈ f.colNames
    · rw [if_pos hc] at hsome
      exact ⟨f, hf, hc, (Option.some.inj hsome).symm⟩
    · rw [if_neg hc] at hsome
      exact absurd hsome (by simp)
  · rintro ⟨f, hf, hc, rfl⟩
    exact ⟨f, hf, by rw [if_pos hc]⟩

theorem pyEmpty_false_rows {f : Frame} (h : f.pyEmpty = false) : f.rows ≠ [] := by
  unfold Frame.pyEmpty at h
  rw [Bool.or_eq_false_iff] at h
  intro habs
  rw [habs] at h
  exact absurd h.1 (by decide)

theorem mergePool_flatten_ne (doe den pdr oc dsc sem : Frame)
    (hlab : ∀ f ∈ [doe, den, pdr, oc, dsc, sem], ("Label" : String) ∈ f.colNames)
    (f0 : Frame) (hf0 : f0 ∈ [doe, den, pdr, oc, dsc, sem]) (hne : f0.pyEmpty = false) :
    (mergePool doe den pdr oc dsc sem).flatten ≠ [] := by
  intro habs
  have hmem : (f0.colVals "Label").map normCell ∈ mergePool doe den pdr oc dsc sem :=
    (mem_mergePool doe den pdr oc dsc sem _).mpr ⟨f0, hf0, ⟨hne, hlab f0 hf0⟩, rfl⟩
  have hnil : (f0.colVals "Label").map normCell = [] := by
    rw [List.flatten_eq_nil_iff] at habs
    exact habs _ hmem
  rw [List.map_eq_nil_iff] at hnil
  have := colVals_length f0 "Label"
  rw [hnil] at this
  exact pyEmpty_false_rows hne (List.length_eq_zero.mp this.symm)

theorem mergePool_nil_of_empty (doe den pdr oc dsc sem : Frame)
    (h : ∀ f ∈ [doe, den, pdr, oc, dsc, sem], f.pyEmpty = true) :
    mergePool doe den pdr oc dsc sem = [] := by
  unfold mergePool
  rw [List.filterMap_eq_nil_iff]
  intro f hf
  rw [if_neg]
  rintro ⟨hfe, _⟩
  rw [h f hf] at hfe
  exact absurd hfe (by decide)

theorem mergeForFoam_label_col (foam : String) (doe den pdr oc dsc sem : Frame)
    (hne : dedupFirst (mergePool doe den pdr oc dsc sem).flatten ≠ []) :
    (mergeForFoam foam doe den pdr oc dsc sem).colVals "Label"
      = (pySorted (dedupFirst (mergePool doe den pdr oc dsc sem).flatten)).map
          Cell.str := by
  rw [mergeForFoam_nonempty_eq foam doe den pdr oc dsc sem hne]
  have hLmem : ("Label" : String) ∈ BASE_NEW_COLUMN_ORDER := by decide
  set L := pySorted (dedupFirst (mergePool doe den pdr oc dsc sem).flatten) with hL
  set rows := L.map (buildRow foam doe den pdr oc dsc sem) with hrows
  have hwf0 : (frameOfRecords rows).WF := frameOfRecords_WF rows
  have hwf1 : (ensurePsat (frameOfRecords rows)).WF := ensurePsat_WF _ hwf0
  rw [colVals_selectCols _ _ _ hLmem]
  have hl0 : ∃ l, l ∈ L := by
    obtain ⟨y, hy⟩ := List.exists_mem_of_ne_nil _ hne
    exact ⟨y, (mem_pySorted y _).mpr hy⟩
  obtain ⟨l0, hl0⟩ := hl0
  have hLabel0 : ("Label" : String) ∈ (frameOfRecords rows).colNames := by
    rw [mem_frameOfRecords_colNames]
    refine ⟨buildRow foam doe den pdr oc dsc sem l0, ?_, ?_⟩
    · rw [hrows]
      exact List.mem_map_of_mem _ hl0
    · unfold buildRow
      simp
  rw [(ensureCols_spec BASE_NEW_COLUMN_ORDER (ensurePsat (frameOfRecords rows))
      hwf1).2.2.2.1 "Label" (mem_ensurePsat_of_mem _ hLabel0)]
  rw [colVals_ensurePsat_ne _ hwf0 (by decide)]
  rw [colVals_frameOfRecords, hrows, List.map_map]
  simp only [Function.comp_def]
  refine List.map_congr_left ?_
  intro l _
  exact buildRow_label foam doe den pdr oc dsc sem l

/-! ### C1: merge completeness -/

/-- C1: for every foam type and reader-shaped source frames, the set of
`Label` values of the merged per-foam table equals the union of the
normalized labels occurring in the non-empty sources — no label dropped,
none invented — and the merge returns the empty table exactly when every
source is empty.  The hypothesis records an invariant of the reader
outputs: unique column names and a `Label` column in every frame (all six
readers emit one on every path). -/
theorem claim_C1_merge_label_completeness (foam : String)
    (doe den pdr oc dsc sem : Frame)
    (hsrc : ∀ f ∈ [doe, den, pdr, oc, dsc, sem],
      f.colNames.Nodup ∧ ("Label" : String) ∈ f.colNames) :
    (∀ l : String,
        Cell.str l ∈ (mergeForFoam foam doe den pdr oc dsc sem).colVals "Label"
          ↔ ∃ f ∈ [doe, den, pdr, oc, dsc, sem], f.pyEmpty = false
              ∧ ∃ c ∈ f.colVals "Label", normCell c = l)
    ∧ (mergeForFoam foam doe den pdr oc dsc sem = ⟨[], []⟩
        ↔ ∀ f ∈ [doe, den, pdr, oc, dsc, sem], f.pyEmpty = true) := by
  by_cases hall : dedupFirst (mergePool doe den pdr oc dsc sem).flatten = []
  · have hflat : (mergePool doe den pdr oc dsc sem).flatten = [] := dedupFirst_eq_nil hall
    have hallempty : ∀ f ∈ [doe, den, pdr, oc, dsc, sem], f.pyEmpty = true := by
      intro f hf
      by_contra hne
      have hne' : f.pyEmpty = false := by
        cases hx : f.pyEmpty
        · rfl
        · exact absurd hx hne
      exact mergePool_flatten_ne doe den pdr oc dsc sem
        (fun g hg => (hsrc g hg).2) f hf hne' hflat
    have hmerged := mergeForFoam_empty_eq foam doe den pdr oc dsc sem hall
    constructor
    · intro l
      rw [hmerged]
      constructor
      · intro hmem
        exact absurd hmem (by simp [Frame.colVals])
      · rintro ⟨f, hf, hfe, -⟩
        rw [hallempty f hf] at hfe
        exact absurd hfe (by decide)
    · rw [hmerged]
      exact ⟨fun _ => hallempty, fun _ => rfl⟩
  · have hlab := mergeForFoam_label_col foam doe den pdr oc dsc sem hall
    constructor
    · intro l
      rw [hlab]
      constructor
      · intro hmem
        obtain ⟨y, hy, hye⟩ := List.mem_map.mp hmem
        obtain rfl : y = l := Cell.str.inj hye
        rw [mem_pySorted, mem_dedupFirst, List.mem_flatten] at hy
        obtain ⟨lst, hlst, hyin⟩ := hy
        obtain ⟨f, hf, ⟨hfe, -⟩, rfl⟩ := (mem_mergePool doe den pdr oc dsc sem lst).mp hlst
        obtain ⟨c, hc, hce⟩ := List.mem_map.mp hyin
        exact ⟨f, hf, hfe, c, hc, hce⟩
      · rintro ⟨f, hf, hfe, c, hc, hce⟩
        refine List.mem_map.mpr ⟨l, ?_, rfl⟩
        rw [mem_pySorted, mem_dedupFirst, List.mem_flatten]
        refine ⟨(f.colVals "Label").map normCell, ?_, ?_⟩
        · exact (mem_mergePool doe den pdr oc dsc sem _).mpr
            ⟨f, hf, ⟨hfe, (hsrc f hf).2⟩, rfl⟩
        · exact List.mem_map.mpr ⟨c, hc, hce⟩
    · constructor
      · intro habs
        have h1 := mergeForFoam_nonempty_eq foam doe den pdr oc dsc sem hall
        rw [habs] at h1
        have h2 : ([] : List String) = BASE_NEW_COLUMN_ORDER := congrArg Frame.colNames h1
        exact absurd h2 (by decide)
      · intro hforall
        exfalso
        apply hall
        rw [mergePool_nil_of_empty doe den pdr oc dsc sem hforall]
        rfl

set_option maxRecDepth 10000 in
/-- Witness for C1 at the §8 end-to-end scenario (DoE: labels A, B; Density:
labels B, C): label B appears in the merged table. -/
theorem claim_C1_witness :
    Cell.str "B" ∈ (mergeForFoam "X" wDoe wDen wPdrEmpty wOcEmpty wDscEmpty
      wSemEmpty).colVals "Label" := by
  refine ((claim_C1_merge_label_completeness "X" wDoe wDen wPdrEmpty wOcEmpty wDscEmpty
    wSemEmpty (by decide)).1 "B").mpr ?_
  exact ⟨wDen, by decide, by decide, Cell.str "B", by decide, by decide⟩

/-! ### C2: column completeness -/

theorem setCol_colNames_of_mem (f : Frame) (n : String) (vs : List Cell)
    (h : n ∈ f.colNames) : (f.setCol n vs).colNames = f.colNames := by
  unfold Frame.setCol
  rw [if_pos h]

theorem combineStep_sheets : ∀ (inputs : List (String × SourceSet))
    (acc : List (String × Frame) × Frame),
    (∀ s ∈ acc.1, s.2.colNames = BASE_NEW_COLUMN_ORDER) →
    ∀ s ∈ (inputs.foldl combineStep acc).1, s.2.colNames = BASE_NEW_COLUMN_ORDER := by
  intro inputs
  induction inputs with
  | nil => intro acc hacc; exact hacc
  | cons it rest ih =>
    intro acc hacc
    rw [List.foldl_cons]
    refine ih _ ?_
    simp only [combineStep]
    split
    · exact hacc
    · rename_i hfd
      intro s hs
      rcases List.mem_append.mp hs with hs | hs
      · exact hacc s hs
      · rw [List.mem_singleton] at hs
        subst hs
        show ((mergeForFoam it.1 it.2.doe it.2.density it.2.pdr it.2.oc it.2.dsc
          it.2.sem).setCol "Polymer" _).colNames = BASE_NEW_COLUMN_ORDER
        rcases mergeForFoam_colNames_or it.1 it.2.doe it.2.density it.2.pdr it.2.oc
          it.2.dsc it.2.sem with hc | hc
        · rw [setCol_colNames_of_mem _ _ _ (by rw [hc]; decide), hc]
        · exfalso
          apply hfd
          rw [hc]
          rfl

/-- C2 counterexample: with every source empty (the schema-only frames the
readers return for missing files), `merge_for_foam` returns `pd.DataFrame()`
— a table with no columns at all rather than the canonical column list. -/
theorem claim_C2_counterexample :
    ¬ ((mergeForFoam "X" wDoeEmpty wDenEmpty wPdrEmpty wOcEmpty wDscEmpty
        wSemEmpty).colNames = BASE_NEW_COLUMN_ORDER) := by
  decide

/-- C2 (amended): the assembled `All_Results` table always carries exactly
the canonical columns in order, and so does every per-foam sheet the
assembler writes; the per-foam merge carries them whenever any source
contributed a label, and otherwise returns the fully empty, column-less
table (so the claim's "always" fails only in that no-label case). -/
theorem claim_C2_column_completeness_amended :
    (∀ inputs : List (String × SourceSet),
        (createCombined inputs).2.colNames = BASE_NEW_COLUMN_ORDER)
    ∧ (∀ (inputs : List (String × SourceSet)) (s : String × Frame),
        s ∈ (createCombined inputs).1 → s.2.colNames = BASE_NEW_COLUMN_ORDER)
    ∧ (∀ (foam : String) (doe den pdr oc dsc sem : Frame),
        (mergeForFoam foam doe den pdr oc dsc sem).colNames = BASE_NEW_COLUMN_ORDER
        ∨ mergeForFoam foam doe den pdr oc dsc sem = ⟨[], []⟩) := by
  refine ⟨fun inputs => rfl, ?_, mergeForFoam_colNames_or⟩
  intro inputs s hs
  exact combineStep_sheets inputs ([], ⟨[], []⟩) (by simp) s hs

theorem headD_mem_of_ne_nil {α : Type} (l : List α) (d : α) (h : l ≠ []) :
    l.headD d ∈ l := by
  cases l with
  | nil => exact absurd rfl h
  | cons a t => exact List.mem_cons_self a t

set_option maxRecDepth 10000 in
/-- Witness for C2's per-sheet clause at the §8 scenario input. -/
theorem claim_C2_witness :
    ((createCombined wInputs).1.headD ("", ⟨[], []⟩)).2.colNames
      = BASE_NEW_COLUMN_ORDER := by
  refine claim_C2_column_completeness_amended.2.1 wInputs _
    (headD_mem_of_ne_nil _ _ ?_)
  intro h
  have h1 : (createCombined wInputs).1.length = 1 := by decide
  rw [h] at h1
  exact absurd h1 (by decide)

/-! ### C5: Psat derivation -/

theorem mem_map_fst_pairs {β : Type} (cols : List String) (g : String → β)
    (k : String) (hk : k ∈ (cols.map (fun c => (c, g c))).map Prod.fst) : k ∈ cols := by
  rw [List.map_map] at hk
  simpa using hk

theorem buildRow_keys (foam : String) (doe den pdr oc dsc sem : Frame) (lbl : String) :
    ∀ k ∈ (buildRow foam doe den pdr oc dsc sem lbl).map Prod.fst,
      k = "Label" ∨ k = "Polymer" ∨ k ∈ DOE_MERGE_COLS ∨ k ∈ PDR_MERGE_COLS
      ∨ k ∈ SEM_MERGE_COLS ∨ k ∈ DENSITY_DATA_COLUMNS ∨ k = "OC (%)"
      ∨ k ∈ DSC_MERGE_COLS := by
  intro k hk
  unfold buildRow at hk
  simp only [List.map_append, List.mem_append] at hk
  rcases hk with ((((((hk | hk) | hk) | hk) | hk) | hk) | hk)
  · simp at hk
    rcases hk with rfl | rfl
    · exact Or.inl rfl
    · exact Or.inr (Or.inl rfl)
  · refine Or.inr (Or.inr (Or.inl ?_))
    split at hk
    · split at hk
      · exact mem_map_fst_pairs _ _ _ hk
      · simp at hk
    · simp at hk
  · refine Or.inr (Or.inr (Or.inr (Or.inl ?_)))
    split at hk
    · split at hk
      · exact mem_map_fst_pairs _ _ _ hk
      · simp at hk
    · simp at hk
  · refine Or.inr (Or.inr (Or.inr (Or.inr (Or.inl ?_))))
    split at hk
    · split at hk
      · exact List.mem_of_mem_filter (mem_map_fst_pairs _ _ _ hk)
      · simp at hk
    · simp at hk
  · refine Or.inr (Or.inr (Or.inr (Or.inr (Or.inr (Or.inl ?_)))))
    split at hk
    · split at hk
      · exact List.mem_of_mem_filter (mem_map_fst_pairs _ _ _ hk)
      · simp at hk
    · simp at hk
  · refine Or.inr (Or.inr (Or.inr (Or.inr (Or.inr (Or.inr (Or.inl ?_))))))
    split at hk
    · split at hk
      · simpa using hk
      · simp at hk
    · simp at hk
  · refine Or.inr (Or.inr (Or.inr (Or.inr (Or.inr (Or.inr (Or.inr ?_))))))
    split at hk
    · split at hk
      · exact List.mem_of_mem_filter (mem_map_fst_pairs _ _ _ hk)
      · simp at hk
    · simp at hk

theorem buildRow_no_psat (foam : String) (doe den pdr oc dsc sem : Frame) (lbl : String) :
    ("Psat (MPa)" : String) ∉ (buildRow foam doe den pdr oc dsc sem lbl).map Prod.fst := by
  intro h
  rcases buildRow_keys foam doe den pdr oc dsc sem lbl _ h with
    h | h | h | h | h | h | h | h <;> revert h <;> decide

theorem merge_df0_no_psat (foam : String) (doe den pdr oc dsc sem : Frame)
    (L : List String) :
    ("Psat (MPa)" : String) ∉ (frameOfRecords
      (L.map (buildRow foam doe den pdr oc dsc sem))).colNames := by
  intro h
  obtain ⟨r, hr, hk⟩ := (mem_frameOfRecords_colNames _ _).mp h
  obtain ⟨l, -, rfl⟩ := List.mem_map.mp hr
  exact buildRow_no_psat foam doe den pdr oc dsc sem l hk

theorem getD_map_na (g : Cell → Cell) (hg : g Cell.na = Cell.na) :
    ∀ (l : List Cell) (i : Nat), (l.map g).getD i Cell.na = g (l.getD i Cell.na) := by
  intro l
  induction l with
  | nil => intro i; simp [hg]
  | cons c cs ih =>
    intro i
    cases i with
    | zero => rfl
    | succ j => exact ih j

theorem getD_replicate_na : ∀ (n i : Nat),
    (List.replicate n Cell.na).getD i Cell.na = Cell.na := by
  intro n
  induction n with
  | zero => intro i; cases i <;> rfl
  | succ m ih =>
    intro i
    cases i with
    | zero => rfl
    | succ j => exact ih j

/-- C5: Psat derivation — in every merged per-foam table, whenever row `i`
of `P CO2 (bar)` holds the number `q`, row `i` of `Psat (MPa)` holds
`q / 10` (the rows `merge_for_foam` builds never carry a `Psat (MPa)` key,
so the derivation branch of `_ensure_psat_column` always governs the merged
table); and `_ensure_psat_column` leaves any frame unchanged whose supplied
`Psat (MPa)` column has a non-missing entry. -/
theorem claim_C5_psat_derivation :
    (∀ (foam : String) (doe den pdr oc dsc sem : Frame) (i : Nat) (q : ℚ),
      ((mergeForFoam foam doe den pdr oc dsc sem).colVals "P CO2 (bar)").getD i Cell.na
          = Cell.num q →
      ((mergeForFoam foam doe den pdr oc dsc sem).colVals "Psat (MPa)").getD i Cell.na
          = Cell.num (q / 10))
    ∧ (∀ f : Frame, ("Psat (MPa)" : String) ∈ f.colNames →
        allNa (f.colVals "Psat (MPa)") = false → ensurePsat f = f) := by
  refine ⟨?_, ensurePsat_preserves_supplied⟩
  intro foam doe den pdr oc dsc sem i q hq
  by_cases hall : dedupFirst (mergePool doe den pdr oc dsc sem).flatten = []
  · rw [mergeForFoam_empty_eq foam doe den pdr oc dsc sem hall] at hq
    rw [show (⟨[], []⟩ : Frame).colVals "P CO2 (bar)" = [] from rfl] at hq
    have hna : ([] : List Cell).getD i Cell.na = Cell.na := by cases i <;> rfl
    rw [hna] at hq
    exact Cell.noConfusion hq
  · have hmre := mergeForFoam_nonempty_eq foam doe den pdr oc dsc sem hall
    rw [hmre] at hq ⊢
    set L := pySorted (dedupFirst (mergePool doe den pdr oc dsc sem).flatten) with hL
    set df0 := frameOfRecords (L.map (buildRow foam doe den pdr oc dsc sem)) with hdf0
    have hwf0 : df0.WF := by rw [hdf0]; exact frameOfRecords_WF _
    have hwf1 : (ensurePsat df0).WF := ensurePsat_WF df0 hwf0
    have hnopsat : ("Psat (MPa)" : String) ∉ df0.colNames := by
      rw [hdf0]
      exact merge_df0_no_psat foam doe den pdr oc dsc sem L
    rw [colVals_selectCols _ _ _
      (by decide : ("P CO2 (bar)" : String) ∈ BASE_NEW_COLUMN_ORDER)] at hq
    rw [colVals_selectCols _ _ _
      (by decide : ("Psat (MPa)" : String) ∈ BASE_NEW_COLUMN_ORDER)]
    obtain ⟨w1, w2, w3, w4, w5⟩ := ensureCols_spec BASE_NEW_COLUMN_ORDER (ensurePsat df0) hwf1
    by_cases hpco2 : ("P CO2 (bar)" : String) ∈ df0.colNames
    · have hLne : L ≠ [] := by
        intro habs
        obtain ⟨y, hy⟩ := List.exists_mem_of_ne_nil _ hall
        have hy2 := (mem_pySorted y _).mpr hy
        rw [← hL, habs] at hy2
        exact absurd hy2 (by simp)
      have hne0 : df0.pyEmpty = false := by
        unfold Frame.pyEmpty
        rw [Bool.or_eq_false_iff]
        constructor
        · rw [List.isEmpty_eq_false]
          intro habs
          have hlen := frameOfRecords_rows_length (L.map (buildRow foam doe den pdr oc dsc sem))
          rw [← hdf0, habs, List.length_nil, List.length_map] at hlen
          exact hLne (List.length_eq_zero.mp hlen.symm)
        · rw [List.isEmpty_eq_false]
          exact List.ne_nil_of_mem hpco2
      have hder := ensurePsat_derives df0 hne0 hnopsat hpco2
      have hcvals : (ensureCols BASE_NEW_COLUMN_ORDER (ensurePsat df0)).colVals "P CO2 (bar)"
          = df0.colVals "P CO2 (bar)" := by
        rw [w4 _ (mem_ensurePsat_of_mem df0 hpco2),
          colVals_ensurePsat_ne df0 hwf0 (by decide)]
      have hpsatmem : ("Psat (MPa)" : String) ∈ (ensurePsat df0).colNames := by
        rw [hder]
        exact (mem_setCol_colNames _ _ _ _).mpr (Or.inr rfl)
      have hpvals : (ensureCols BASE_NEW_COLUMN_ORDER (ensurePsat df0)).colVals "Psat (MPa)"
          = (df0.colVals "P CO2 (bar)").map (fun c => divTen (toNumericCell c)) := by
        rw [w4 _ hpsatmem, hder,
          colVals_setCol_self df0 _ _ hwf0 (by rw [List.length_map, colVals_length])]
      rw [hcvals] at hq
      rw [hpvals, getD_map_na (fun c => divTen (toNumericCell c)) rfl, hq]
      rfl
    · exfalso
      have heq := ensurePsat_no_pco2 df0 hpco2
      have hvals := w5 "P CO2 (bar)" (by rw [heq]; exact hpco2)
      rw [hvals, getD_replicate_na] at hq
      exact Cell.noConfusion hq

set_option maxRecDepth 10000 in
/-- Witness for C5 at the §8 scenario: the merged row for label A has
`P CO2 (bar) = 50`, so its `Psat (MPa)` entry is `50 / 10`. -/
theorem claim_C5_witness :
    ((mergeForFoam "X" wDoe wDen wPdrEmpty wOcEmpty wDscEmpty wSemEmpty).colVals
        "Psat (MPa)").getD 0 Cell.na = Cell.num (50 / 10) := by
  refine claim_C5_psat_derivation.1 "X" wDoe wDen wPdrEmpty wOcEmpty wDscEmpty wSemEmpty
    0 50 ?_
  decide

/-! ### C9: sheet-name sanitization -/

/-- C9 counterexample: the assembler sanitizes only `/` — a foam type
containing `:` keeps it in the sheet name, so the claimed replacement of
every character in `: \ / ? * [ ]` does not hold. -/
theorem claim_C9_counterexample :
    excelSheetName "PET:GF" ≠ specSheetName "PET:GF"
    ∧ ':' ∈ (excelSheetName "PET:GF").data := by
  constructor
  · decide
  · decide

/-- C9 (amended): the per-foam sheet name is the foam type truncated to 31
characters with `/` replaced by `_`; it never exceeds 31 characters and
never contains `/`, and it agrees with the fully sanitized name exactly on
foam types free of the other six illegal characters. -/
theorem claim_C9_sheet_name_amended (ft : String)
    (h : ∀ c ∈ ft.data, c ∉ [':', '\\', '?', '*', '[', ']']) :
    excelSheetName ft = specSheetName ft
    ∧ (excelSheetName ft).data.length ≤ 31
    ∧ '/' ∉ (excelSheetName ft).data := by
  refine ⟨?_, ?_, ?_⟩
  · have hmap : ft.data.map (fun c => if c = '/' then '_' else c)
        = ft.data.map (fun c =>
            if c ∈ [':', '\\', '/', '?', '*', '[', ']'] then '_' else c) := by
      refine List.map_congr_left ?_
      intro c hc
      by_cases hcs : c = '/'
      · subst hcs
        decide
      · have hnotmem : c ∉ [':', '\\', '/', '?', '*', '[', ']'] := by
          intro hmem
          simp only [List.mem_cons, List.not_mem_nil, or_false] at hmem
          rcases hmem with rfl | rfl | rfl | rfl | rfl | rfl | rfl
          · exact (h _ hc) (by decide)
          · exact (h _ hc) (by decide)
          · exact hcs rfl
          · exact (h _ hc) (by decide)
          · exact (h _ hc) (by decide)
          · exact (h _ hc) (by decide)
          · exact (h _ hc) (by decide)
        rw [if_neg hcs, if_neg hnotmem]
    unfold excelSheetName specSheetName
    rw [hmap]
  · exact List.length_take_le 31 _
  · intro hmem
    unfold excelSheetName at hmem
    have hmem2 := List.mem_of_mem_take hmem
    obtain ⟨c, -, hce⟩ := List.mem_map.mp hmem2
    by_cases hcs : c = '/'
    · rw [if_pos hcs] at hce
      exact absurd hce (by decide)
    · rw [if_neg hcs] at hce
      exact hcs hce

/-- Witness for C9 at a foam type with a `/` and more than 31 characters. -/
theorem claim_C9_witness :
    excelSheetName "PET/GF extra long foam type name 123"
      = specSheetName "PET/GF extra long foam type name 123" :=
  (claim_C9_sheet_name_amended "PET/GF extra long foam type name 123" (by decide)).1

/-! ### C10: positional column access -/

theorem fold26_ge : ∀ (l : List Char) (n : Nat),
    n ≤ l.foldl (fun m ch => m * 26 + (ch.toNat - 65 + 1)) n := by
  intro l
  induction l with
  | nil => intro n; exact Nat.le_refl n
  | cons c cs ih =>
    intro n
    refine le_trans ?_ (ih (n * 26 + (c.toNat - 65 + 1)))
    omega

theorem fold26_pos (c : Char) (cs : List Char) :
    1 ≤ (c :: cs).foldl (fun m ch => m * 26 + (ch.toNat - 65 + 1)) 0 := by
  show 1 ≤ cs.foldl _ (0 * 26 + (c.toNat - 65 + 1))
  refine le_trans ?_ (fold26_ge cs _)
  omega

theorem fold26_filter : ∀ (l : List Char) (n : Nat),
    l.foldl (fun m ch =>
        if 65 ≤ ch.toNat ∧ ch.toNat ≤ 90 then m * 26 + (ch.toNat - 65 + 1) else m) n
      = (l.filter (fun ch => decide (65 ≤ ch.toNat ∧ ch.toNat ≤ 90))).foldl
          (fun m ch => m * 26 + (ch.toNat - 65 + 1)) n := by
  intro l
  induction l with
  | nil => intro n; rfl
  | cons c cs ih =>
    intro n
    by_cases hc : 65 ≤ c.toNat ∧ c.toNat ≤ 90
    · rw [List.foldl_cons, if_pos hc, List.filter_cons,
        if_pos (decide_eq_true hc), List.foldl_cons]
      exact ih _
    · rw [List.foldl_cons, if_neg hc, List.filter_cons, if_neg (by simpa using hc)]
      exact ih _

/-- C10: positional column access is total — `_cm_excel_col_idx` agrees with
base-26 conversion over the A–Z characters of the stripped, uppercased
string (others ignored; an empty or letterless string maps to index 0), and
`_cm_col` with an index at or beyond the frame's column count returns an
all-missing series of the frame's row length instead of raising; the
returned series always has the frame's row length. -/
theorem claim_C10_column_access_total :
    (∀ s : String, cmExcelColIdx s = specColIdx s)
    ∧ (∀ (df : Frame) (s : String),
        df.colNames.length ≤ cmExcelColIdx s →
          cmCol df s = List.replicate df.rows.length Cell.na)
    ∧ (∀ (df : Frame) (s : String), (cmCol df s).length = df.rows.length)
    ∧ (cmExcelColIdx "" = 0 ∧ cmExcelColIdx "7?" = 0 ∧ cmExcelColIdx "A" = 0
       ∧ cmExcelColIdx "Z" = 25 ∧ cmExcelColIdx "AA" = 26) := by
  refine ⟨?_, ?_, ?_, by decide⟩
  · intro s
    simp only [cmExcelColIdx, specColIdx]
    rw [fold26_filter]
    rcases hk : (((pyStrip s.data).map Char.toUpper).filter
        (fun ch => decide (65 ≤ ch.toNat ∧ ch.toNat ≤ 90))) with _ | ⟨c, cs2⟩
    · rw [hk]
      rfl
    · rw [hk]
      have hpos := fold26_pos c cs2
      rw [if_neg (by omega), if_neg (by simp)]
  · intro df s h
    simp only [cmCol]
    rw [if_pos h]
  · intro df s
    simp only [cmCol]
    split
    · rw [List.length_replicate]
    · rw [List.length_map]

/-- Witness for C10: column K of a two-column, one-row frame is a single
missing value. -/
theorem claim_C10_witness :
    cmCol ⟨["Label", "B"], [[Cell.str "a", Cell.na]]⟩ "K"
      = List.replicate 1 Cell.na :=
  claim_C10_column_access_total.2.1 ⟨["Label", "B"], [[Cell.str "a", Cell.na]]⟩ "K"
    (by decide)

/-! ### C3: reader fallbacks -/

/-- C3 counterexample: a workbook with one sheet named `Data` — neither
`dsc_results` nor `dsc_tg_results` — makes the DSC reader read that first
sheet as a label-only frame: the result has no metric columns at all and is
not even empty, instead of the claimed empty three-metric-schema frame. -/
theorem claim_C3_counterexample :
    (readDscPos (some [("Data", ⟨["H"], [[Cell.str "12345"]]⟩)])).colNames = ["Label"]
    ∧ (readDscPos (some [("Data", ⟨["H"], [[Cell.str "12345"]]⟩)])).rows ≠ [] := by
  constructor
  · decide
  · decide

/-- C3 (amended): the DSC and OC readers return schema-carrying empty frames
for a missing or unreadable file and for a workbook with no sheets; but a
non-empty workbook with neither DSC sheet name is read through its first
sheet as a label-only frame — the metric columns are absent, so the claimed
three-metric schema holds only in the missing-file and sheetless cases. -/
theorem claim_C3_reader_fallback_amended :
    readDscPos none = ⟨DSC_SCHEMA, []⟩
    ∧ readDscPos (some []) = ⟨DSC_SCHEMA, []⟩
    ∧ readOcPos none = ⟨OC_SCHEMA, []⟩
    ∧ readOcPos (some []) = ⟨OC_SCHEMA, []⟩
    ∧ (∀ (w0 : String × Frame) (rest : Workbook),
        lookupLowerLast ((w0 :: rest).map Prod.fst) "dsc_results" = none →
        lookupLowerLast ((w0 :: rest).map Prod.fst) "dsc_tg_results" = none →
        pyLower w0.1 ≠ "dsc_results" →
        pyLower w0.1 ≠ "dsc_tg_results" →
        (readDscPos (some (w0 :: rest))).colNames = ["Label"]) := by
  refine ⟨rfl, rfl, rfl, rfl, ?_⟩
  intro w0 rest h1 h2 h3 h4
  simp only [readDscPos]
  rw [h1, h2]
  show (dropnaLabel (if pyLower ((pyOrStr (pyOrStr none none) (some w0.1)).getD w0.1)
      = "dsc_results" then _ else _)).colNames = ["Label"]
  rw [show (pyOrStr (pyOrStr none none) (some w0.1)).getD w0.1 = w0.1 from rfl]
  rw [if_neg h3, if_neg h4]
  rfl

/-- Witness for C3's first-sheet clause at a concrete workbook. -/
theorem claim_C3_witness :
    (readDscPos (some [("Summary", ⟨["H"], [[Cell.str "20250101"]]⟩)])).colNames
      = ["Label"] :=
  claim_C3_reader_fallback_amended.2.2.2.2 ("Summary", ⟨["H"], [[Cell.str "20250101"]]⟩)
    [] (by decide) (by decide) (by decide) (by decide)

/-! ### C4: archival rotation -/

/-- C4 (code bug): two Combine runs on the same day destroy the first run's
output everywhere.  Starting from empty folders, run 1 writes content 1 and
run 2 writes content 2 under the same dated name: run 2's rotation skips the
dated file because its basename equals the upcoming output's, the write
overwrites it in the destination, and the audit copy (a plain `copy2`, no
timestamp) overwrites the archived copy — afterwards both folders hold only
content 2 and no file preserves run 1's bytes, contradicting the claimed
"first run's version is still preserved". -/
theorem claim_C4_same_day_data_loss :
    runCombine "20250101" "110000" 2 (runCombine "20250101" "100000" 1 ⟨[], []⟩)
      = ⟨[("All_Results_20250101.xlsx", 2)], [("All_Results_20250101.xlsx", 2)]⟩
    ∧ 1 ∉ ((runCombine "20250101" "110000" 2
          (runCombine "20250101" "100000" 1 ⟨[], []⟩)).dest.map Prod.snd
        ++ (runCombine "20250101" "110000" 2
          (runCombine "20250101" "100000" 1 ⟨[], []⟩)).prev.map Prod.snd) := by
  constructor
  · decide
  · decide

/-! ### C8: configuration removal -/

/-- C8: removing the last remaining paper or the last remaining global foam
type fails and leaves the configuration unchanged; a successful foam-type
removal reports success, purges the type from the global registry, from
every paper's foam list and from every module's per-paper path entries, and
moves `current_foam_type` to the first remaining type when the removed one
was current.  The `Nodup`/count hypotheses hold for configurations the GUI
builds, whose lists are populated from dict keys. -/
theorem claim_C8_config_removal (cfg : Config) (paper ft : String) :
    (cfg.papers.length ≤ 1 → removePaper cfg paper = (false, cfg))
    ∧ (cfg.foamTypes.length ≤ 1 → removeFoamType cfg ft = (false, cfg))
    ∧ (ft ∈ cfg.foamTypes → 1 < cfg.foamTypes.length →
        cfg.foamTypes.Nodup →
        (∀ p ∈ cfg.paperFoamTypes, p.2.count ft ≤ 1) →
        (removeFoamType cfg ft).1 = true
        ∧ ft ∉ (removeFoamType cfg ft).2.foamTypes
        ∧ (∀ p ∈ (removeFoamType cfg ft).2.paperFoamTypes, ft ∉ p.2)
        ∧ (∀ m ∈ (removeFoamType cfg ft).2.modulePaths, ∀ p ∈ m.2, ∀ e ∈ p.2,
            e.1 ≠ ft)
        ∧ (cfg.currentFoamType = ft →
            (removeFoamType cfg ft).2.currentFoamType
              = (cfg.foamTypes.erase ft).headD "")) := by
  refine ⟨?_, ?_, ?_⟩
  · intro hlen
    unfold removePaper
    rw [if_neg (fun hc => by omega)]
  · intro hlen
    unfold removeFoamType
    rw [if_neg (fun hc => by omega)]
  · intro hmem hlen hnodup hcount
    have hrm : removeFoamType cfg ft
        = (true, ⟨cfg.papers, cfg.currentPaper, cfg.foamTypes.erase ft,
            (if cfg.currentFoamType = ft then (cfg.foamTypes.erase ft).headD ""
             else cfg.currentFoamType),
            cfg.paperFoamTypes.map (fun p => (p.1, p.2.erase ft)),
            cfg.modulePaths.map (fun m =>
              (m.1, (m.2.map (fun p => (p.1, p.2.filter (fun e => decide (e.1 ≠ ft))))).filter
                (fun p => !p.2.isEmpty))),
            cfg.allResultsPaths, cfg.paperRootPaths⟩) := by
      simp only [removeFoamType]
      rw [if_pos ⟨hmem, hlen⟩]
    rw [hrm]
    refine ⟨rfl, ?_, ?_, ?_, fun hcur => by rw [if_pos hcur]⟩
    · intro habs
      exact absurd ((hnodup.mem_erase_iff).mp habs).1 (by simp)
    · intro p hp habs
      obtain ⟨p0, hp0, rfl⟩ := List.mem_map.mp hp
      have hcnt := hcount p0 hp0
      have hzero : (p0.2.erase ft).count ft = 0 := by
        rw [List.count_erase_self]
        omega
      rw [← List.count_pos_iff] at habs
      have habs2 : 0 < (p0.2.erase ft).count ft := habs
      omega
    · intro m hm p hp e he
      obtain ⟨m0, -, rfl⟩ := List.mem_map.mp hm
      have hp2 := List.mem_of_mem_filter hp
      obtain ⟨p0, -, rfl⟩ := List.mem_map.mp hp2
      have := (List.mem_filter.mp he).2
      simpa using this

/-- Witness for C8 at a two-foam-type configuration: removing `F1`
succeeds, purges it, and promotes `F2` to current. -/
theorem claim_C8_witness :
    (removeFoamType wCfg "F1").1 = true
    ∧ ("F1" : String) ∉ (removeFoamType wCfg "F1").2.foamTypes
    ∧ (removeFoamType wCfg "F1").2.currentFoamType
        = (wCfg.foamTypes.erase "F1").headD "" := by
  obtain ⟨h1, h2, -, -, h5⟩ := (claim_C8_config_removal wCfg "P1" "F1").2.2
    (by decide) (by decide) (by decide) (by decide)
  exact ⟨h1, h2, h5 (by decide)⟩

end Siphony
